import Mathlib

/-!
Verification development for the `mcp-code-assistant` tool server
(`src/mcp-code-assistant.py`).

The Python source is shallowly embedded as follows.

* The subset of the Python abstract syntax tree that the analyser
  inspects (`ast.ClassDef`, `ast.FunctionDef`, `ast.Import`,
  `ast.ImportFrom`, expression statements holding a string constant,
  and a catch-all for every other statement) is the inductive type
  `Stmt`; a parsed file is a `Module` (its statement list).  `lineno`
  and `col_offset` are the integer fields Python attaches to each node.
* `ast.walk` (CPython: a deque, `popleft`, extend with the children —
  a breadth-first traversal) is `walkStmts`; `ast.get_docstring` is
  `getDocstring` (first statement of a body that is a string-constant
  expression).  Python string truthiness (empty string is falsy) is
  `truthyDoc`.
* `analyze_python_file`'s pure part (lines 111-171 of the source) is
  `analyzeAST`; the coverage float is modelled as `ℚ`.  The wrapper
  that reads the file and parses it is `analyze_python_file`, taking
  the parser as a parameter (the parser is CPython's `ast.parse`, not
  code of this repository) and a filesystem state.
* The target-selection part of `generate_docstring` (lines 264-286)
  is `findTarget`; the falsy-argument guards (`if object_name:`,
  `elif line_number:`) are modelled by `truthyOptStr`/`truthyOptNat`.
* The filesystem tools are modelled over `FSState`: an association
  list of files (path components to content) and a list of existing
  directories.  Paths are lists of components, so `os.path.dirname`
  is `List.dropLast` and `os.path.join` is list append.  JSON results
  (`json.dumps` of a dict) are values of the inductive `JVal`.
  Error strings supplied by the OS (`str(e)`) are modelled with their
  errno text, with the quoting of the path elided.
* `glob.glob` / `fnmatch` (CPython stdlib, not repository code) are
  modelled per component: `fnmatchCore` implements `*`, `?` and
  literal characters (character classes are treated literally), and
  `compsMatch` matches a component-split pattern against a relative
  path, with `**` spanning any number of components only when
  `recursive=True`, and the hidden-file rule (a component starting
  with a dot is only matched by a pattern component starting with a
  dot).
-/

namespace MCPAssist

/-- The statement subset of the Python AST inspected by the analyser.
Each constructor carries `lineno` and `col_offset` as produced by
`ast.parse`.  `exprStr` is an expression statement whose value is a
string constant (the docstring idiom); `other` stands for any other
statement (assignments, `pass`, `if`, `return`, ...).  Bodies of
`if`/`try`/... blocks inside `other` are not modelled: the analyser
only ever recurses through class and function bodies via
`ast.iter_child_nodes`, and for the claims at hand only class/function
nesting matters; statements are otherwise opaque. -/
inductive Stmt : Type where
  | classDef (name : String) (lineno col : Nat) (body : List Stmt)
  | functionDef (name : String) (lineno col : Nat) (args : List String) (body : List Stmt)
  | importStmt (lineno col : Nat) (names : List String)
  | importFrom (lineno col : Nat) (module : String) (names : List String)
  | exprStr (lineno col : Nat) (s : String)
  | other (lineno col : Nat)

mutual

/-- Boolean equality on the nested inductive `Stmt`. -/
def stmtBeq : Stmt → Stmt → Bool
  | .classDef n1 l1 c1 b1, .classDef n2 l2 c2 b2 =>
      n1 == n2 && l1 == l2 && c1 == c2 && stmtListBeq b1 b2
  | .functionDef n1 l1 c1 a1 b1, .functionDef n2 l2 c2 a2 b2 =>
      n1 == n2 && l1 == l2 && c1 == c2 && a1 == a2 && stmtListBeq b1 b2
  | .importStmt l1 c1 n1, .importStmt l2 c2 n2 => l1 == l2 && c1 == c2 && n1 == n2
  | .importFrom l1 c1 m1 n1, .importFrom l2 c2 m2 n2 =>
      l1 == l2 && c1 == c2 && m1 == m2 && n1 == n2
  | .exprStr l1 c1 s1, .exprStr l2 c2 s2 => l1 == l2 && c1 == c2 && s1 == s2
  | .other l1 c1, .other l2 c2 => l1 == l2 && c1 == c2
  | _, _ => false

/-- Boolean equality on lists of statements. -/
def stmtListBeq : List Stmt → List Stmt → Bool
  | [], [] => true
  | a :: r, b :: t => stmtBeq a b && stmtListBeq r t
  | _, _ => false

end

mutual

theorem eq_of_stmtBeq : ∀ a b : Stmt, stmtBeq a b = true → a = b
  | .classDef n1 l1 c1 b1, .classDef n2 l2 c2 b2, h => by
      simp only [stmtBeq, Bool.and_eq_true, beq_iff_eq] at h
      obtain ⟨⟨⟨h1, h2⟩, h3⟩, h4⟩ := h
      exact h1 ▸ h2 ▸ h3 ▸ (eq_of_stmtListBeq b1 b2 h4) ▸ rfl
  | .functionDef n1 l1 c1 a1 b1, .functionDef n2 l2 c2 a2 b2, h => by
      simp only [stmtBeq, Bool.and_eq_true, beq_iff_eq] at h
      obtain ⟨⟨⟨⟨h1, h2⟩, h3⟩, h4⟩, h5⟩ := h
      exact h1 ▸ h2 ▸ h3 ▸ h4 ▸ (eq_of_stmtListBeq b1 b2 h5) ▸ rfl
  | .importStmt l1 c1 n1, .importStmt l2 c2 n2, h => by
      simp only [stmtBeq, Bool.and_eq_true, beq_iff_eq] at h
      obtain ⟨⟨h1, h2⟩, h3⟩ := h
      exact h1 ▸ h2 ▸ h3 ▸ rfl
  | .importFrom l1 c1 m1 n1, .importFrom l2 c2 m2 n2, h => by
      simp only [stmtBeq, Bool.and_eq_true, beq_iff_eq] at h
      obtain ⟨⟨⟨h1, h2⟩, h3⟩, h4⟩ := h
      exact h1 ▸ h2 ▸ h3 ▸ h4 ▸ rfl
  | .exprStr l1 c1 s1, .exprStr l2 c2 s2, h => by
      simp only [stmtBeq, Bool.and_eq_true, beq_iff_eq] at h
      obtain ⟨⟨h1, h2⟩, h3⟩ := h
      exact h1 ▸ h2 ▸ h3 ▸ rfl
  | .other l1 c1, .other l2 c2, h => by
      simp only [stmtBeq, Bool.and_eq_true, beq_iff_eq] at h
      obtain ⟨h1, h2⟩ := h
      exact h1 ▸ h2 ▸ rfl
  | .classDef _ _ _ _, .functionDef _ _ _ _ _, h => by simp [stmtBeq] at h
  | .classDef _ _ _ _, .importStmt _ _ _, h => by simp [stmtBeq] at h
  | .classDef _ _ _ _, .importFrom _ _ _ _, h => by simp [stmtBeq] at h
  | .classDef _ _ _ _, .exprStr _ _ _, h => by simp [stmtBeq] at h
  | .classDef _ _ _ _, .other _ _, h => by simp [stmtBeq] at h
  | .functionDef _ _ _ _ _, .classDef _ _ _ _, h => by simp [stmtBeq] at h
  | .functionDef _ _ _ _ _, .importStmt _ _ _, h => by simp [stmtBeq] at h
  | .functionDef _ _ _ _ _, .importFrom _ _ _ _, h => by simp [stmtBeq] at h
  | .functionDef _ _ _ _ _, .exprStr _ _ _, h => by simp [stmtBeq] at h
  | .functionDef _ _ _ _ _, .other _ _, h => by simp [stmtBeq] at h
  | .importStmt _ _ _, .classDef _ _ _ _, h => by simp [stmtBeq] at h
  | .importStmt _ _ _, .functionDef _ _ _ _ _, h => by simp [stmtBeq] at h
  | .importStmt _ _ _, .importFrom _ _ _ _, h => by simp [stmtBeq] at h
  | .importStmt _ _ _, .exprStr _ _ _, h => by simp [stmtBeq] at h
  | .importStmt _ _ _, .other _ _, h => by simp [stmtBeq] at h
  | .importFrom _ _ _ _, .classDef _ _ _ _, h => by simp [stmtBeq] at h
  | .importFrom _ _ _ _, .functionDef _ _ _ _ _, h => by simp [stmtBeq] at h
  | .importFrom _ _ _ _, .importStmt _ _ _, h => by simp [stmtBeq] at h
  | .importFrom _ _ _ _, .exprStr _ _ _, h => by simp [stmtBeq] at h
  | .importFrom _ _ _ _, .other _ _, h => by simp [stmtBeq] at h
  | .exprStr _ _ _, .classDef _ _ _ _, h => by simp [stmtBeq] at h
  | .exprStr _ _ _, .functionDef _ _ _ _ _, h => by simp [stmtBeq] at h
  | .exprStr _ _ _, .importStmt _ _ _, h => by simp [stmtBeq] at h
  | .exprStr _ _ _, .importFrom _ _ _ _, h => by simp [stmtBeq] at h
  | .exprStr _ _ _, .other _ _, h => by simp [stmtBeq] at h
  | .other _ _, .classDef _ _ _ _, h => by simp [stmtBeq] at h
  | .other _ _, .functionDef _ _ _ _ _, h => by simp [stmtBeq] at h
  | .other _ _, .importStmt _ _ _, h => by simp [stmtBeq] at h
  | .other _ _, .importFrom _ _ _ _, h => by simp [stmtBeq] at h
  | .other _ _, .exprStr _ _ _, h => by simp [stmtBeq] at h

theorem eq_of_stmtListBeq : ∀ a b : List Stmt, stmtListBeq a b = true → a = b
  | [], [], _ => rfl
  | a :: r, b :: t, h => by
      simp only [stmtListBeq, Bool.and_eq_true] at h
      rw [eq_of_stmtBeq a b h.1, eq_of_stmtListBeq r t h.2]
  | [], _ :: _, h => by simp [stmtListBeq] at h
  | _ :: _, [], h => by simp [stmtListBeq] at h

end

mutual

theorem stmtBeq_rfl : ∀ a : Stmt, stmtBeq a a = true
  | .classDef _ _ _ b => by simp [stmtBeq, stmtListBeq_rfl b]
  | .functionDef _ _ _ _ b => by simp [stmtBeq, stmtListBeq_rfl b]
  | .importStmt _ _ _ => by simp [stmtBeq]
  | .importFrom _ _ _ _ => by simp [stmtBeq]
  | .exprStr _ _ _ => by simp [stmtBeq]
  | .other _ _ => by simp [stmtBeq]

theorem stmtListBeq_rfl : ∀ a : List Stmt, stmtListBeq a a = true
  | [] => rfl
  | a :: r => by simp [stmtListBeq, stmtBeq_rfl a, stmtListBeq_rfl r]

end

instance : DecidableEq Stmt := fun a b =>
  if h : stmtBeq a b = true then .isTrue (eq_of_stmtBeq a b h)
  else .isFalse (fun he => h (he ▸ stmtBeq_rfl a))

/-- A parsed module (`ast.Module`): its body. -/
structure Module : Type where
  body : List Stmt
  deriving DecidableEq

/-- The child statements a node contributes to the traversal
(`ast.iter_child_nodes`, restricted to statements: only class and
function bodies contain further statements in the modelled subset). -/
def Stmt.children : Stmt → List Stmt
  | .classDef _ _ _ b => b
  | .functionDef _ _ _ _ b => b
  | _ => []

mutual

/-- Size of a statement tree, for termination of the traversals. -/
def Stmt.size : Stmt → Nat
  | .classDef _ _ _ b => 1 + sizeListS b
  | .functionDef _ _ _ _ b => 1 + sizeListS b
  | .importStmt _ _ _ => 1
  | .importFrom _ _ _ _ => 1
  | .exprStr _ _ _ => 1
  | .other _ _ => 1

/-- Total size of a list of statement trees. -/
def sizeListS : List Stmt → Nat
  | [] => 0
  | s :: r => Stmt.size s + sizeListS r

end

theorem sizeListS_append (a b : List Stmt) :
    sizeListS (a ++ b) = sizeListS a + sizeListS b := by
  induction a with
  | nil => simp [sizeListS]
  | cons s r ih => simp [sizeListS, ih]; omega

theorem Stmt.size_pos (s : Stmt) : 1 ≤ s.size := by
  cases s <;> simp only [Stmt.size] <;> omega

theorem sizeListS_children_lt (s : Stmt) : sizeListS s.children < s.size := by
  cases s <;> simp only [Stmt.size, Stmt.children, sizeListS] <;> omega

/-- Fuel-driven worker for the breadth-first walk (structural recursion
on the fuel, so that concrete walks compute inside the kernel).  The
zero-fuel case is unreachable whenever the fuel bounds the total size
of the queue, as `walkAux_congr` below makes precise. -/
def walkAux : Nat → List Stmt → List Stmt
  | _, [] => []
  | 0, _ :: _ => []
  | fuel + 1, s :: q => s :: walkAux fuel (q ++ s.children)

/-- The statement part of `ast.walk`: breadth-first traversal.  CPython
keeps a deque seeded with the root, pops from the left, yields the node
and appends its children; restricted to the statement subset this is
exactly the recursion of `walkAux` (the module root itself is handled
separately by the callers, since it is not a `Stmt`). -/
def walkStmts (l : List Stmt) : List Stmt :=
  walkAux (sizeListS l) l

/-- Flattened children of a list of statements. -/
def childrenList (l : List Stmt) : List Stmt :=
  (l.map Stmt.children).flatten

theorem walkAux_congr :
    ∀ (f1 : Nat), ∀ (f2 : Nat) (l : List Stmt),
      sizeListS l ≤ f1 → sizeListS l ≤ f2 → walkAux f1 l = walkAux f2 l := by
  intro f1
  induction f1 with
  | zero =>
    intro f2 l h1 _
    cases l with
    | nil => cases f2 <;> rfl
    | cons s q =>
      exfalso
      have := Stmt.size_pos s
      simp [sizeListS] at h1
      omega
  | succ f1 ih =>
    intro f2 l h1 h2
    cases l with
    | nil => cases f2 <;> rfl
    | cons s q =>
      cases f2 with
      | zero =>
        exfalso
        have := Stmt.size_pos s
        simp [sizeListS] at h2
        omega
      | succ f2 =>
        simp only [walkAux]
        have hq : sizeListS (q ++ s.children) < sizeListS (s :: q) := by
          simp only [sizeListS, sizeListS_append]
          have := sizeListS_children_lt s
          omega
        have hr1 : sizeListS (q ++ s.children) ≤ f1 := by omega
        have hr2 : sizeListS (q ++ s.children) ≤ f2 := by omega
        rw [ih f2 (q ++ s.children) hr1 hr2]

theorem walkStmts_nil : walkStmts [] = [] := rfl

theorem walkStmts_cons (s : Stmt) (q : List Stmt) :
    walkStmts (s :: q) = s :: walkStmts (q ++ s.children) := by
  show walkAux (sizeListS (s :: q)) (s :: q) = s :: walkAux (sizeListS (q ++ s.children)) (q ++ s.children)
  have hpos : 1 ≤ Stmt.size s := Stmt.size_pos s
  have hsz : sizeListS (s :: q) = Stmt.size s + sizeListS q := rfl
  obtain ⟨k, hk⟩ : ∃ k, sizeListS (s :: q) = k + 1 := by
    refine ⟨sizeListS (s :: q) - 1, ?_⟩
    omega
  rw [hk]
  simp only [walkAux]
  have hb : sizeListS (q ++ s.children) ≤ k := by
    have hlt : sizeListS (q ++ s.children) < sizeListS (s :: q) := by
      simp only [sizeListS, sizeListS_append]
      have := sizeListS_children_lt s
      omega
    omega
  rw [walkAux_congr k (sizeListS (q ++ s.children)) (q ++ s.children) hb le_rfl]

/-- Breadth-first decomposition: the walk of `a ++ b` starts with `a`
and continues with the walk of `b` followed by all children of `a`. -/
theorem walkStmts_append (a : List Stmt) :
    ∀ b : List Stmt, walkStmts (a ++ b) = a ++ walkStmts (b ++ childrenList a) := by
  induction a with
  | nil => intro b; simp [childrenList]
  | cons x a ih =>
    intro b
    have h1 : (x :: a) ++ b = x :: (a ++ b) := rfl
    rw [h1, walkStmts_cons]
    have h2 : (a ++ b) ++ x.children = a ++ (b ++ x.children) := by
      simp
    rw [h2, ih (b ++ x.children)]
    simp [childrenList, List.append_assoc]

/-- The walk of a statement list is that list followed by the walk of
all its children (one breadth-first layer at a time). -/
theorem walkStmts_decomp (l : List Stmt) :
    walkStmts l = l ++ walkStmts (childrenList l) := by
  have := walkStmts_append l []
  simpa using this

theorem mem_walkStmts_of_mem {l : List Stmt} {s : Stmt} (h : s ∈ l) :
    s ∈ walkStmts l := by
  rw [walkStmts_decomp]
  exact List.mem_append_left _ h

/-- Bound for the strong-induction proofs below. -/
theorem sizeListS_queue_lt {s : Stmt} {q : List Stmt} :
    sizeListS (q ++ s.children) < sizeListS (s :: q) := by
  simp [sizeListS, sizeListS_append]
  have := sizeListS_children_lt s
  omega

/-- The walk is closed under taking children: every child of a walked
statement is itself walked. -/
theorem walkStmts_children_mem :
    ∀ (n : Nat) (l : List Stmt), sizeListS l ≤ n →
      ∀ s ∈ walkStmts l, ∀ t ∈ s.children, t ∈ walkStmts l := by
  intro n
  induction n with
  | zero =>
    intro l hl s hs t _
    cases l with
    | nil => simp [walkStmts_nil] at hs
    | cons a q =>
      exfalso
      have := Stmt.size_pos a
      simp [sizeListS] at hl
      omega
  | succ n ih =>
    intro l hl s hs t ht
    cases l with
    | nil => simp [walkStmts_nil] at hs
    | cons a q =>
      rw [walkStmts_cons] at hs ⊢
      have hlt : sizeListS (q ++ a.children) ≤ n := by
        have := sizeListS_queue_lt (s := a) (q := q)
        omega
      rcases List.mem_cons.mp hs with heq | hmem
      · subst heq
        exact List.mem_cons_of_mem _ (mem_walkStmts_of_mem (List.mem_append_right _ ht))
      · exact List.mem_cons_of_mem _ (ih (q ++ a.children) hlt s hmem t ht)

theorem mem_children_mem_walk {l : List Stmt} {s t : Stmt}
    (hs : s ∈ walkStmts l) (ht : t ∈ s.children) : t ∈ walkStmts l :=
  walkStmts_children_mem (sizeListS l) l le_rfl s hs t ht

/-- Fuel-driven worker for the pre-order listing; the fuel
`sizeListS l` always suffices, as each step removes a statement and
enqueues only its strictly smaller body. -/
def preAux : Nat → List Stmt → List Stmt
  | _, [] => []
  | 0, _ :: _ => []
  | fuel + 1, s :: r => s :: (preAux fuel s.children ++ preAux fuel r)

/-- Pre-order (depth-first) listing of a statement forest; used only to
state the spec's claimed "pre-order scan" selection policy. -/
def preorderList (l : List Stmt) : List Stmt :=
  preAux (sizeListS l) l

/-! ## Docstrings and the analysis report (`analyze_python_file`, lines 111-171) -/

/-- `ast.get_docstring` applied to a body: the docstring is the value of
a leading expression statement holding a string constant, `None`
otherwise.  (The source never requests the `clean=False` variant; the
whitespace cleanup applied by CPython is the identity on the one-line
literals used in the concrete inputs below and is not modelled.) -/
def getDocstring : List Stmt → Option String
  | .exprStr _ _ s :: _ => some s
  | _ => none

/-- Python truthiness of `ast.get_docstring(node)`: `None` and the empty
string are falsy. -/
def truthyDoc : Option String → Bool
  | some s => decide (s ≠ "")
  | none => false

/-- The reported docstring field: `ast.get_docstring(node) or "No docstring"`
(lines 126, 133, 139).  Python's `or` takes the right operand whenever
the left is falsy, so both a missing docstring and an empty-string
docstring yield the sentinel. -/
def docstringField : Option String → String
  | some s => if s = "" then "No docstring" else s
  | none => "No docstring"

/-- `isinstance(node, (ast.FunctionDef, ast.ClassDef))`. -/
def isFuncOrClass : Stmt → Bool
  | .classDef _ _ _ _ => true
  | .functionDef _ _ _ _ _ => true
  | _ => false

/-- The docstring of a class or function statement
(`ast.get_docstring(node)` looks at the node's body). -/
def docOfStmt (s : Stmt) : Option String :=
  getDocstring s.children

def stmtLineno : Stmt → Nat
  | .classDef _ ln _ _ => ln
  | .functionDef _ ln _ _ _ => ln
  | .importStmt ln _ _ => ln
  | .importFrom ln _ _ _ => ln
  | .exprStr ln _ _ => ln
  | .other ln _ => ln

def stmtCol : Stmt → Nat
  | .classDef _ _ c _ => c
  | .functionDef _ _ c _ _ => c
  | .importStmt _ c _ => c
  | .importFrom _ c _ _ => c
  | .exprStr _ c _ => c
  | .other _ c => c

def stmtName : Stmt → Option String
  | .classDef nm _ _ _ => some nm
  | .functionDef nm _ _ _ _ => some nm
  | _ => none

structure MethodInfo : Type where
  name : String
  lineno : Nat
  docstring : String
  deriving DecidableEq

structure ClassInfo : Type where
  name : String
  lineno : Nat
  methods : List MethodInfo
  docstring : String
  deriving DecidableEq

structure FunctionInfo : Type where
  name : String
  lineno : Nat
  docstring : String
  deriving DecidableEq

/-- One entry of the `imports` list: `{"type": "import", "name": n}` or
`{"type": "from", "module": m, "name": n}`. -/
inductive ImportInfo : Type where
  | direct (name : String)
  | fromMod (module : String) (name : String)
  deriving DecidableEq

/-- The analysis dictionary returned by `analyze_python_file` on
success (lines 162-171).  The coverage float is modelled as `ℚ`. -/
structure Report : Type where
  file_path : String
  line_count : Nat
  classes : List ClassInfo
  functions : List FunctionInfo
  imports : List ImportInfo
  docstring_coverage : ℚ
  nodes_requiring_docstrings : Nat
  docstring_count : Nat
  deriving DecidableEq

/-- A method entry (line 122-127): direct `FunctionDef` children of a
class body only. -/
def methodInfoOf : Stmt → Option MethodInfo
  | .functionDef nm ln _ _ b =>
      some { name := nm, lineno := ln, docstring := docstringField (getDocstring b) }
  | _ => none

/-- A class entry (lines 119-134). -/
def classInfoOf : Stmt → Option ClassInfo
  | .classDef nm ln _ body =>
      some { name := nm, lineno := ln,
             methods := body.filterMap methodInfoOf,
             docstring := docstringField (getDocstring body) }
  | _ => none

/-- A top-level function entry (lines 135-140): only emitted when
`node.col_offset == 0`. -/
def funcInfoOf : Stmt → Option FunctionInfo
  | .functionDef nm ln col _ b =>
      if col = 0 then
        some { name := nm, lineno := ln, docstring := docstringField (getDocstring b) }
      else none
  | _ => none

/-- The same shape with the `col_offset` test dropped: the information
emitted for a declaration that the source text places at module level.
Used to state claim C3. -/
def topFuncInfoOf : Stmt → Option FunctionInfo
  | .functionDef nm ln _ _ b =>
      some { name := nm, lineno := ln, docstring := docstringField (getDocstring b) }
  | _ => none

/-- Import entries (lines 141-146): one entry per imported name. -/
def importInfoOf : Stmt → List ImportInfo
  | .importStmt _ _ names => names.map ImportInfo.direct
  | .importFrom _ _ md names => names.map (ImportInfo.fromMod md)
  | _ => []

/-- `node is documented` for the coverage count (lines 150-152):
a function or class whose docstring is truthy. -/
def stmtDocumented (s : Stmt) : Bool :=
  isFuncOrClass s && truthyDoc (docOfStmt s)

/-- `docstring_count` (lines 150-152): walked nodes among
`{FunctionDef, ClassDef, Module}` whose `ast.get_docstring` is truthy.
The module root is the leading `1/0`; the rest counts over the
breadth-first statement walk. -/
def docstringCountOf (m : Module) : Nat :=
  (if truthyDoc (getDocstring m.body) then 1 else 0)
    + (walkStmts m.body).countP stmtDocumented

/-- `nodes_requiring_docstrings` (lines 155-156): walked nodes among
`{FunctionDef, ClassDef, Module}`; the module root always counts. -/
def nodesRequiringOf (m : Module) : Nat :=
  1 + (walkStmts m.body).countP isFuncOrClass

/-- The pure part of `analyze_python_file` (lines 111-171), applied to
an already parsed module.  `file_path` and `line_count` are the values
the wrapper feeds in. -/
def analyzeAST (file_path : String) (line_count : Nat) (m : Module) : Report :=
  let walked := walkStmts m.body
  { file_path := file_path
    line_count := line_count
    classes := walked.filterMap classInfoOf
    functions := walked.filterMap funcInfoOf
    imports := (walked.map importInfoOf).flatten
    docstring_coverage :=
      if nodesRequiringOf m > 0 then
        ((docstringCountOf m : ℚ) / (nodesRequiringOf m : ℚ)) * 100
      else 0
    nodes_requiring_docstrings := nodesRequiringOf m
    docstring_count := docstringCountOf m }

/-! ## Target selection of `generate_docstring` (lines 264-286) -/

/-- A resolvable docstring target: the module itself or a statement. -/
inductive DocTarget : Type where
  | moduleT
  | stmtT (s : Stmt)
  deriving DecidableEq

/-- Python truthiness of the optional `object_name` argument. -/
def truthyOptStr : Option String → Bool
  | some s => decide (s ≠ "")
  | none => false

/-- Python truthiness of the optional `line_number` argument. -/
def truthyOptNat : Option Nat → Bool
  | some n => decide (n ≠ 0)
  | none => false

/-- The target-selection logic of `generate_docstring` (lines 264-286):
`if object_name:` scan `ast.walk` for the first function/class with
that name; `elif line_number:` scan for the first function/class at
that line; otherwise take the first walked node among
`{FunctionDef, ClassDef, Module}` without a truthy docstring (the
module root is walked first). -/
def findTarget (m : Module) (objectName : Option String) (lineNumber : Option Nat) :
    Option DocTarget :=
  if truthyOptStr objectName then
    ((walkStmts m.body).find? (fun s =>
      isFuncOrClass s && decide (stmtName s = objectName))).map DocTarget.stmtT
  else if truthyOptNat lineNumber then
    ((walkStmts m.body).find? (fun s =>
      isFuncOrClass s && decide (some (stmtLineno s) = lineNumber))).map DocTarget.stmtT
  else
    if truthyDoc (getDocstring m.body) = false then some DocTarget.moduleT
    else
      ((walkStmts m.body).find? (fun s =>
        isFuncOrClass s && !truthyDoc (docOfStmt s))).map DocTarget.stmtT

/-- The docstring of a target. -/
def targetDoc (m : Module) : DocTarget → Option String
  | .moduleT => getDocstring m.body
  | .stmtT s => docOfStmt s

/-- All documentable targets in the order `ast.walk` yields them: the
module root first, then every walked function or class. -/
def documentableTargets (m : Module) : List DocTarget :=
  DocTarget.moduleT ::
    (walkStmts m.body).filterMap (fun s =>
      if isFuncOrClass s then some (DocTarget.stmtT s) else none)

/-- The first undocumented documentable node in breadth-first
(`ast.walk`) order. -/
def bfsFirstUndocumented (m : Module) : Option DocTarget :=
  (documentableTargets m).find? (fun t => !truthyDoc (targetDoc m t))

/-- Modelled from the spec's words for claim C5: the selection policy
the spec claims — "first undocumented declaration found during a
full-tree scan (scan order = pre-order, first match wins)", the module
root being the first node of the pre-order scan. -/
def preorderFirstUndocumented (m : Module) : Option DocTarget :=
  if truthyDoc (getDocstring m.body) = false then some DocTarget.moduleT
  else
    ((preorderList m.body).find? (fun s =>
      isFuncOrClass s && !truthyDoc (docOfStmt s))).map DocTarget.stmtT

/-! ## Filesystem model and the file tools -/

/-- A filesystem path, as its list of components (`os.path.dirname` is
`dropLast`, `os.path.join` is append). -/
abbrev FPath := List String

/-- The textual form of a path (components joined by the separator),
used in messages and report fields. -/
def showPath : FPath → String
  | [] => ""
  | [c] => c
  | c :: rest => c ++ "/" ++ showPath rest

/-- Filesystem state: contents of regular files (an association list,
most recent entry first) and the set of existing directories. -/
structure FSState : Type where
  files : List (FPath × String)
  dirs : List FPath

def lookupFile (fs : FSState) (p : FPath) : Option String :=
  (fs.files.find? (fun e => decide (e.1 = p))).map (fun e => e.2)

def isDirFS (fs : FSState) (p : FPath) : Bool :=
  fs.dirs.any (fun d => decide (d = p))

/-- `os.path.exists`: true for files and directories alike. -/
def existsFS (fs : FSState) (p : FPath) : Bool :=
  (lookupFile fs p).isSome || isDirFS fs p

/-- All nonempty prefixes of a path, shortest first, the path itself
last. -/
def ancestorsOf (p : FPath) : List FPath :=
  (List.range p.length).map (fun k => p.take (k + 1))

/-- `os.makedirs(d, exist_ok=True)`: fails when some component of the
requested chain already exists as a regular file, otherwise brings
every directory of the chain into existence. -/
def makedirsFS (fs : FSState) (d : FPath) : Option FSState :=
  if (ancestorsOf d).any (fun q => (lookupFile fs q).isSome) then none
  else some { fs with dirs := ancestorsOf d ++ fs.dirs }

/-- A JSON value, for the `json.dumps` results of the tools. -/
inductive JVal : Type where
  | str (s : String)
  | num (n : Int)
  | bool (b : Bool)
  | arr (xs : List JVal)
  | obj (fields : List (String × JVal))

/-- Field lookup in a JSON object result; `none` when the value is not
an object or lacks the key. -/
def objField (v : JVal) (k : String) : Option JVal :=
  match v with
  | .obj fields => ((fields.find? (fun e => decide (e.1 = k))).map (fun e => e.2))
  | _ => none

/-- Whether a JSON value is an object (a structured record). -/
def JVal.isObjB : JVal → Bool
  | .obj _ => true
  | _ => false

/-- `str(e)` of the `FileNotFoundError` raised by `open` on a missing
path (quoting of the path elided). -/
def notFoundErrno (p : FPath) : String :=
  "[Errno 2] No such file or directory: " ++ showPath p

/-- `str(e)` of the `IsADirectoryError` raised by `open` on a
directory. -/
def isADirErrno (p : FPath) : String :=
  "[Errno 21] Is a directory: " ++ showPath p

/-- The in-band error string produced by `get_file_content`
(lines 31-33) on a missing file. -/
def readErrMsg (p : FPath) : String :=
  "Error reading file: " ++ notFoundErrno p

/-- The in-band error string produced by `get_file_content` on a
directory. -/
def readIsDirMsg (p : FPath) : String :=
  "Error reading file: " ++ isADirErrno p

/-- `get_file_content` (lines 26-33): returns the file's content, or an
error-message string when `open` raises; no exception escapes. -/
def get_file_content (fs : FSState) (p : FPath) : String :=
  match lookupFile fs p with
  | some c => c
  | none => if isDirFS fs p then readIsDirMsg p else readErrMsg p

/-- The `get_file` tool (lines 198-209): returns the raw string from
`get_file_content` as the tool result. -/
def get_file_tool (fs : FSState) (p : FPath) : JVal :=
  JVal.str (get_file_content fs p)

/-- Whether `open(p, "w")` succeeds: `p` must not be a directory and
its parent must be the working directory or an existing directory. -/
def openWriteOk (fs : FSState) (p : FPath) : Bool :=
  !isDirFS fs p && (decide (p.dropLast = []) || isDirFS fs p.dropLast)

/-- The `create_file` tool (lines 836-869): create missing parent
directories, note whether the path already exists, write the content
(overwriting silently), and report success with `existed_before`; any
failure is caught and reported with `success: false`. -/
def create_file (fs : FSState) (p : FPath) (content : String) : JVal × FSState :=
  let d := p.dropLast
  let step : Option FSState :=
    if !d.isEmpty && !existsFS fs d then makedirsFS fs d else some fs
  match step with
  | none =>
      (JVal.obj [("success", JVal.bool false),
                 ("error", JVal.str ("Error creating file: " ++ showPath p))], fs)
  | some fs1 =>
      if openWriteOk fs1 p then
        let existed := existsFS fs1 p
        (JVal.obj [("success", JVal.bool true),
                   ("message", JVal.str ("File "
                      ++ (if existed then "overwritten" else "created")
                      ++ " at " ++ showPath p)),
                   ("path", JVal.str (showPath p)),
                   ("existed_before", JVal.bool existed)],
         { fs1 with files := (p, content) :: fs1.files })
      else
        (JVal.obj [("success", JVal.bool false),
                   ("error", JVal.str ("Error creating file: " ++ showPath p))], fs1)

/-- The `delete_file` tool (lines 444-469). -/
def delete_file (fs : FSState) (p : FPath) : JVal × FSState :=
  if !existsFS fs p then
    (JVal.obj [("success", JVal.bool false),
               ("error", JVal.str ("File not found: " ++ showPath p))], fs)
  else if isDirFS fs p then
    (JVal.obj [("success", JVal.bool false),
               ("error", JVal.str ("Path is a directory, use delete_directory instead: "
                  ++ showPath p))], fs)
  else
    (JVal.obj [("success", JVal.bool true),
               ("message", JVal.str ("File deleted: " ++ showPath p))],
     { fs with files := fs.files.filter (fun e => decide (e.1 ≠ p)) })

/-! ## `glob`/`fnmatch` model and `find_files` (lines 800-834) -/

/-- Fuel-driven worker for `fnmatch` on one component; each step spends
one fuel and shortens the pattern or the string, so
`pat.length + s.length` fuel always suffices. -/
def fmAux : Nat → List Char → List Char → Bool
  | _, [], [] => true
  | _, [], _ :: _ => false
  | 0, _ :: _, _ => false
  | fuel + 1, p :: ps, s =>
    if p = '*' then
      match s with
      | [] => fmAux fuel ps []
      | _ :: cs => fmAux fuel ps s || fmAux fuel (p :: ps) cs
    else
      match s with
      | [] => false
      | c :: cs => (decide (p = '?') || decide (p = c)) && fmAux fuel ps cs

/-- `fnmatch` on one path component: `*` (any run), `?` (any one
character), literal characters; character classes are treated as
literal characters. -/
def fnmatchCore (pat s : List Char) : Bool :=
  fmAux (pat.length + s.length) pat s

/-- Whether a string starts with a dot (glob's hidden-entry test). -/
def headIsDot (s : String) : Bool :=
  match s.toList with
  | c :: _ => decide (c = '.')
  | [] => false

/-- One pattern component against one path component, with glob's
hidden-file rule: a component starting with a dot is matched only by a
pattern component starting with a dot. -/
def fnmatchComp (pat comp : String) : Bool :=
  (if headIsDot comp then headIsDot pat else true)
    && fnmatchCore pat.toList comp.toList

/-- Fuel-driven worker for the component-wise pattern match; each step
spends one fuel and shortens the pattern list or the path, so
`pats.length + rel.length` fuel always suffices (`cmAux_congr`). -/
def cmAux (recursive : Bool) : Nat → List String → List String → Bool
  | _, [], [] => true
  | _, [], _ :: _ => false
  | 0, _ :: _, _ => false
  | fuel + 1, p :: ps, rel =>
    if recursive && p == "**" then
      cmAux recursive fuel ps rel ||
        (match rel with
         | [] => false
         | c :: cs => !headIsDot c && cmAux recursive fuel (p :: ps) cs)
    else
      match rel with
      | [] => false
      | c :: cs => fnmatchComp p c && cmAux recursive fuel ps cs

/-- Component-split pattern against a relative path.  Only under
`recursive = true` does a `**` component span zero or more path
components (never entering hidden directories); otherwise `**` is an
ordinary `fnmatch` pattern matching exactly one component. -/
def compsMatch (recursive : Bool) (pats rel : List String) : Bool :=
  cmAux recursive (pats.length + rel.length) pats rel

theorem cmAux_congr (recursive : Bool) :
    ∀ (f1 : Nat), ∀ (f2 : Nat) (pats rel : List String),
      pats.length + rel.length ≤ f1 → pats.length + rel.length ≤ f2 →
      cmAux recursive f1 pats rel = cmAux recursive f2 pats rel := by
  intro f1
  induction f1 with
  | zero =>
    intro f2 pats rel h1 _
    cases pats with
    | nil => cases rel <;> cases f2 <;> rfl
    | cons p ps => simp at h1
  | succ f1 ih =>
    intro f2 pats rel h1 h2
    cases pats with
    | nil => cases rel <;> cases f2 <;> rfl
    | cons p ps =>
      cases f2 with
      | zero => simp at h2
      | succ f2 =>
        simp only [List.length_cons] at h1 h2
        cases rel with
        | nil =>
          simp only [cmAux]
          rw [ih f2 ps [] (by simp only [List.length_nil]; omega)
              (by simp only [List.length_nil]; omega)]
        | cons c cs =>
          simp only [List.length_cons] at h1 h2
          simp only [cmAux]
          rw [ih f2 ps (c :: cs) (by simp only [List.length_cons]; omega)
                (by simp only [List.length_cons]; omega),
              ih f2 (p :: ps) cs (by simp only [List.length_cons]; omega)
                (by simp only [List.length_cons]; omega),
              ih f2 ps cs (by omega) (by omega)]

/-- Unfolding of the non-recursive component match on a pattern
component. -/
theorem compsMatch_false_cons (p : String) (ps rel : List String) :
    compsMatch false (p :: ps) rel
      = match rel with
        | [] => false
        | c :: cs => fnmatchComp p c && compsMatch false ps cs := by
  cases rel with
  | nil =>
    show cmAux false ((p :: ps).length + ([] : List String).length) (p :: ps) [] = false
    have h : (p :: ps).length + ([] : List String).length = ps.length + 1 := by
      simp
    rw [h]
    simp only [cmAux]
    rw [if_neg (by simp)]
  | cons c cs =>
    show cmAux false ((p :: ps).length + (c :: cs).length) (p :: ps) (c :: cs)
        = (fnmatchComp p c && compsMatch false ps cs)
    have h : (p :: ps).length + (c :: cs).length = (ps.length + cs.length + 1) + 1 := by
      simp only [List.length_cons]
      omega
    rw [h]
    simp only [cmAux]
    rw [if_neg (by simp)]
    rw [cmAux_congr false (ps.length + cs.length + 1) (ps.length + cs.length) ps cs
        (by omega) le_rfl]
    rfl

/-- The path of `q` relative to `dir`, when `q` lies below `dir`. -/
def relTo (dir q : FPath) : Option FPath :=
  if q.take dir.length = dir then some (q.drop dir.length) else none

/-- Every existing path of the filesystem. -/
def allPaths (fs : FSState) : List FPath :=
  fs.files.map (fun e => e.1) ++ fs.dirs

/-- Split a character list at a separator character. -/
def splitOnChar (sep : Char) : List Char → List (List Char)
  | [] => [[]]
  | c :: cs =>
    match splitOnChar sep cs with
    | r :: rs => if c = sep then [] :: (r :: rs) else (c :: r) :: rs
    | [] => [[c]]

/-- The component split of a glob pattern at the path separator. -/
def splitPattern (pat : String) : List String :=
  (splitOnChar '/' pat.toList).map (fun cs => String.mk cs)

/-- The match list of the `find_files` tool (lines 816-819):
`glob.glob(os.path.join(directory, "**", pattern), recursive=True)`
when recursive, `glob.glob(os.path.join(directory, pattern))`
otherwise. -/
def find_files_matches (fs : FSState) (dir : FPath) (pattern : String)
    (recursive : Bool) : List FPath :=
  let pats := splitPattern pattern
  let full := if recursive then "**" :: pats else pats
  (allPaths fs).filter (fun q =>
    match relTo dir q with
    | some rel => compsMatch recursive full rel
    | none => false)

/-- The `find_files` tool result (lines 812-834). -/
def find_files (fs : FSState) (dir : FPath) (pattern : String)
    (recursive : Bool) : JVal :=
  if !isDirFS fs dir then
    JVal.obj [("success", JVal.bool false),
              ("error", JVal.str ("Directory not found: " ++ showPath dir))]
  else
    let ms := find_files_matches fs dir pattern recursive
    JVal.obj [("success", JVal.bool true),
              ("pattern", JVal.str pattern),
              ("recursive", JVal.bool recursive),
              ("matches", JVal.arr (ms.map (fun q => JVal.str (showPath q)))),
              ("relative_matches",
                JVal.arr (ms.map (fun q => JVal.str (showPath (q.drop dir.length))))),
              ("count", JVal.num ms.length)]

/-! ## The `analyze_python_file` wrapper (lines 103-174) -/

/-- Number of newline characters in a character list. -/
def countNl : List Char → Nat
  | [] => 0
  | c :: cs => (if c = '\n' then 1 else 0) + countNl cs

/-- Whether a character list ends with a newline. -/
def endsWithNl : List Char → Bool
  | [] => false
  | [c] => decide (c = '\n')
  | _ :: c :: cs => endsWithNl (c :: cs)

/-- `len(content.splitlines())` restricted to `\n` terminators: one
line per newline, plus one for a nonempty tail after the last
newline. -/
def lineCount (s : String) : Nat :=
  countNl s.toList + (if !s.toList.isEmpty && !endsWithNl s.toList then 1 else 0)

/-- The error dictionary `{"error": ..., "file_path": ...}` returned
when reading, parsing or analysis fails (line 174). -/
structure ErrReport : Type where
  error : String
  file_path : String
  deriving DecidableEq

/-- The pure tail of `analyze_python_file` once the text is in hand:
parse, then analyse.  The parser stands for CPython's `ast.parse`. -/
def analyzeSource (parse : String → Except String Module) (path : String)
    (content : String) : Except ErrReport Report :=
  match parse content with
  | .error e => .error { error := e, file_path := path }
  | .ok m => .ok (analyzeAST path (lineCount content) m)

/-- `analyze_python_file` (lines 103-174): opens and reads the file at
the given path itself, then parses and analyses the text; every failure
(missing file, parse error) is caught and returned as an error
dictionary carrying the path. -/
def analyze_python_file (parse : String → Except String Module) (fs : FSState)
    (p : FPath) : Except ErrReport Report :=
  match lookupFile fs p with
  | none => .error { error := notFoundErrno p, file_path := showPath p }
  | some content => analyzeSource parse (showPath p) content

/-! ## Helper lemmas -/

theorem countP_and_le {α : Type} (p q : α → Bool) (l : List α) :
    l.countP (fun x => p x && q x) ≤ l.countP p :=
  List.countP_mono_left (fun x _ h => by
    simp only [Bool.and_eq_true] at h
    exact h.1)

theorem countP_and_eq_iff {α : Type} (p q : α → Bool) (l : List α) :
    l.countP (fun x => p x && q x) = l.countP p
      ↔ ∀ x ∈ l, p x = true → q x = true := by
  induction l with
  | nil => simp
  | cons a l ih =>
    have hle := countP_and_le p q l
    simp only [List.countP_cons, List.mem_cons]
    by_cases hp : p a = true
    · by_cases hq : q a = true
      · rw [if_pos (by simp [hp, hq]), if_pos hp]
        constructor
        · intro h x hx hpx
          rcases hx with rfl | hx
          · exact hq
          · exact (ih.mp (by omega)) x hx hpx
        · intro h
          have := ih.mpr (fun x hx hpx => h x (Or.inr hx) hpx)
          omega
      · rw [if_pos hp, if_neg (by simp [hp, hq])]
        constructor
        · intro h
          exfalso
          omega
        · intro h
          exfalso
          exact hq (h a (Or.inl rfl) hp)
    · rw [if_neg (by simp [hp]), if_neg hp]
      constructor
      · intro h x hx hpx
        rcases hx with rfl | hx
        · exact absurd hpx hp
        · exact (ih.mp (by omega)) x hx hpx
      · intro h
        have := ih.mpr (fun x hx hpx => h x (Or.inr hx) hpx)
        omega

theorem filterMap_congr_mem {α β : Type} {l : List α} {f g : α → Option β}
    (h : ∀ a ∈ l, f a = g a) : l.filterMap f = l.filterMap g := by
  induction l with
  | nil => rfl
  | cons a l ih =>
    simp only [List.filterMap_cons]
    rw [h a (List.mem_cons_self a l)]
    have htail := ih (fun x hx => h x (List.mem_cons_of_mem a hx))
    cases g a <;> simp [htail]

theorem find?_filterMap_ite {α β : Type} (c : α → Bool) (g : α → β) (p : β → Bool)
    (l : List α) :
    (l.filterMap (fun a => if c a then some (g a) else none)).find? p
      = (l.find? (fun a => c a && p (g a))).map g := by
  induction l with
  | nil => rfl
  | cons a l ih =>
    by_cases hc : c a = true
    · have h1 : (a :: l).filterMap (fun a => if c a then some (g a) else none)
          = g a :: l.filterMap (fun a => if c a then some (g a) else none) := by
        simp [List.filterMap_cons, hc]
      by_cases hp : p (g a) = true
      · rw [h1, List.find?_cons_of_pos _ hp, List.find?_cons_of_pos _ (by simp [hc, hp])]
        simp
      · rw [h1, List.find?_cons_of_neg _ (by simp [hp]),
            List.find?_cons_of_neg _ (by simp [hc, hp]), ih]
    · have h1 : (a :: l).filterMap (fun a => if c a then some (g a) else none)
          = l.filterMap (fun a => if c a then some (g a) else none) := by
        simp [List.filterMap_cons, hc]
      rw [h1, List.find?_cons_of_neg _ (by simp [hc]), ih]

/-! ## Coverage facts (claim C1) -/

theorem nodesRequiring_pos (m : Module) : 0 < nodesRequiringOf m := by
  unfold nodesRequiringOf
  omega

theorem docstring_coverage_eq (path : String) (lc : Nat) (m : Module) :
    (analyzeAST path lc m).docstring_coverage
      = ((docstringCountOf m : ℚ) / (nodesRequiringOf m : ℚ)) * 100 := by
  have hpos := nodesRequiring_pos m
  simp [analyzeAST, hpos]

theorem docCount_le (m : Module) : docstringCountOf m ≤ nodesRequiringOf m := by
  unfold docstringCountOf nodesRequiringOf
  have heq : (walkStmts m.body).countP stmtDocumented
      = (walkStmts m.body).countP
          (fun s => isFuncOrClass s && truthyDoc (docOfStmt s)) := rfl
  have h := countP_and_le isFuncOrClass (fun s => truthyDoc (docOfStmt s)) (walkStmts m.body)
  rw [heq]
  by_cases hm : truthyDoc (getDocstring m.body) = true
  · rw [if_pos hm]
    omega
  · rw [if_neg hm]
    omega

/-- C1, amended: for every parsed module, the reported docstring
coverage equals `documented * 100 / documentable` (as an exact
rational), lies in `[0, 100]`, is exactly `0` precisely when no
documentable node — the module, a class, or a function — carries a
non-empty docstring, and is exactly `100` precisely when every
documentable node, the module included, carries a non-empty docstring.
(The claim's phrase "carries a docstring" must be read as "carries a
non-empty docstring": see `c1_counterexample`.  The documentable count
is never zero because the module itself always counts, so the code's
division-by-zero guard is vacuous on parsed files.) -/
theorem c1_theorem (path : String) (lc : Nat) (m : Module) :
    let r := analyzeAST path lc m
    (0 ≤ r.docstring_coverage ∧ r.docstring_coverage ≤ 100)
    ∧ r.docstring_coverage
        = (r.docstring_count : ℚ) * 100 / (r.nodes_requiring_docstrings : ℚ)
    ∧ (r.docstring_coverage = 0
        ↔ (truthyDoc (getDocstring m.body) = false
            ∧ ∀ s ∈ walkStmts m.body, isFuncOrClass s = true
                → truthyDoc (docOfStmt s) = false))
    ∧ (r.docstring_coverage = 100
        ↔ (truthyDoc (getDocstring m.body) = true
            ∧ ∀ s ∈ walkStmts m.body, isFuncOrClass s = true
                → truthyDoc (docOfStmt s) = true)) := by
  intro r
  have hpos : 0 < nodesRequiringOf m := nodesRequiring_pos m
  have hposQ : (0 : ℚ) < (nodesRequiringOf m : ℚ) := by exact_mod_cast hpos
  have hne : (nodesRequiringOf m : ℚ) ≠ 0 := ne_of_gt hposQ
  have hcov : r.docstring_coverage
      = ((docstringCountOf m : ℚ) / (nodesRequiringOf m : ℚ)) * 100 :=
    docstring_coverage_eq path lc m
  have hcount : r.docstring_count = docstringCountOf m := by
    simp [analyzeAST, r]
  have hnodes : r.nodes_requiring_docstrings = nodesRequiringOf m := by
    simp [analyzeAST, r]
  have hle : docstringCountOf m ≤ nodesRequiringOf m := docCount_le m
  have hleQ : (docstringCountOf m : ℚ) ≤ (nodesRequiringOf m : ℚ) := by
    exact_mod_cast hle
  have heqP : (walkStmts m.body).countP stmtDocumented
      = (walkStmts m.body).countP
          (fun s => isFuncOrClass s && truthyDoc (docOfStmt s)) := rfl
  have hab := countP_and_le isFuncOrClass (fun s => truthyDoc (docOfStmt s)) (walkStmts m.body)
  have habIff := countP_and_eq_iff isFuncOrClass (fun s => truthyDoc (docOfStmt s)) (walkStmts m.body)
  refine ⟨⟨?_, ?_⟩, ?_, ?_, ?_⟩
  · rw [hcov]
    positivity
  · rw [hcov]
    have h1 : (docstringCountOf m : ℚ) / (nodesRequiringOf m : ℚ) ≤ 1 :=
      (div_le_one hposQ).mpr hleQ
    have h2 := mul_le_mul_of_nonneg_right h1 (by norm_num : (0 : ℚ) ≤ 100)
    simpa using h2
  · rw [hcov, hcount, hnodes]
    ring
  · rw [hcov]
    have hzero : ((docstringCountOf m : ℚ) / (nodesRequiringOf m : ℚ)) * 100 = 0
        ↔ docstringCountOf m = 0 := by
      constructor
      · intro h
        rcases mul_eq_zero.mp h with h1 | h1
        · rcases div_eq_zero_iff.mp h1 with h2 | h2
          · exact_mod_cast h2
          · exact absurd h2 hne
        · norm_num at h1
      · intro h
        rw [h]
        norm_num
    rw [hzero]
    unfold docstringCountOf
    rw [heqP]
    constructor
    · intro h
      have hi : truthyDoc (getDocstring m.body) = false := by
        by_contra hmne
        rw [if_pos (by revert hmne; cases truthyDoc (getDocstring m.body) <;> simp)] at h
        omega
      have ha : (walkStmts m.body).countP
          (fun s => isFuncOrClass s && truthyDoc (docOfStmt s)) = 0 := by
        omega
      refine ⟨hi, fun s hs hfc => ?_⟩
      have := List.countP_eq_zero.mp ha s hs
      revert this
      simp [hfc]
    · rintro ⟨h1, h2⟩
      rw [if_neg (by simp [h1])]
      have ha : (walkStmts m.body).countP
          (fun s => isFuncOrClass s && truthyDoc (docOfStmt s)) = 0 :=
        List.countP_eq_zero.mpr (fun s hs => by
          by_cases hfc : isFuncOrClass s = true
          · simp [hfc, h2 s hs hfc]
          · simp [hfc])
      omega
  · rw [hcov]
    have h100 : ((docstringCountOf m : ℚ) / (nodesRequiringOf m : ℚ)) * 100 = 100
        ↔ docstringCountOf m = nodesRequiringOf m := by
      constructor
      · intro h
        have h1 : ((docstringCountOf m : ℚ) / (nodesRequiringOf m : ℚ)) * 100
            = 1 * 100 := by
          rw [h]
          norm_num
        have h2 := mul_right_cancel₀ (show (100 : ℚ) ≠ 0 by norm_num) h1
        exact_mod_cast (div_eq_one_iff_eq hne).mp h2
      · intro h
        rw [h, div_self hne]
        norm_num
    rw [h100]
    unfold docstringCountOf nodesRequiringOf
    rw [heqP]
    constructor
    · intro h
      have hi : truthyDoc (getDocstring m.body) = true := by
        by_contra hmne
        rw [if_neg hmne] at h
        omega
      rw [if_pos hi] at h
      exact ⟨hi, habIff.mp (by omega)⟩
    · rintro ⟨h1, h2⟩
      rw [if_pos h1, habIff.mpr h2]

/-- C1 counterexample: the module whose whole text is the empty string
literal (the file `""` on one line).  Its only documentable node, the
module, carries a docstring — the empty one, `ast.get_docstring`
returning `""` — so the claim's formula "(nodes carrying a docstring /
documentable) × 100" gives 100, while the code's truthiness test makes
`analyze_code` report a coverage of 0. -/
theorem c1_counterexample :
    (analyzeAST "empty_doc.py" 1 ⟨[Stmt.exprStr 1 0 ""]⟩).docstring_coverage = 0
    ∧ getDocstring (Module.mk [Stmt.exprStr 1 0 ""]).body = some ""
    ∧ (∀ s ∈ walkStmts (Module.mk [Stmt.exprStr 1 0 ""]).body, isFuncOrClass s = false)
    ∧ (analyzeAST "empty_doc.py" 1 ⟨[Stmt.exprStr 1 0 ""]⟩).nodes_requiring_docstrings = 1
    ∧ (0 : ℚ) ≠ 100 := by
  refine ⟨?_, by decide, by decide, by decide, by norm_num⟩
  rw [docstring_coverage_eq]
  have h1 : docstringCountOf ⟨[Stmt.exprStr 1 0 ""]⟩ = 0 := by decide
  have h2 : nodesRequiringOf ⟨[Stmt.exprStr 1 0 ""]⟩ = 1 := by decide
  rw [h1, h2]
  norm_num

/-! ## Docstring reporting (claim C2) -/

/-- C2, amended: the report encodes a missing docstring as the sentinel
string "No docstring" rather than as the empty string — but Python's
`or` also collapses an *empty* docstring to the very same sentinel, so
"no documentation" and "empty documentation" are NOT distinguishable
downstream; only a non-empty docstring is reported verbatim (and a
docstring whose text happens to be "No docstring" collides with the
sentinel as well). -/
theorem c2_theorem (nm : String) (ln ln2 c2 : Nat) (args : List String) (d : String)
    (hd : d ≠ "") :
    docstringField none = "No docstring"
    ∧ docstringField (some "") = "No docstring"
    ∧ docstringField (some d) = d
    ∧ (analyzeAST "f.py" 2 ⟨[Stmt.functionDef nm ln 0 args [Stmt.other ln2 c2]]⟩).functions
        = [⟨nm, ln, "No docstring"⟩]
    ∧ (analyzeAST "f.py" 2 ⟨[Stmt.functionDef nm ln 0 args [Stmt.exprStr ln2 c2 ""]]⟩).functions
        = [⟨nm, ln, "No docstring"⟩]
    ∧ (analyzeAST "f.py" 2 ⟨[Stmt.functionDef nm ln 0 args [Stmt.exprStr ln2 c2 d]]⟩).functions
        = [⟨nm, ln, d⟩] := by
  refine ⟨rfl, rfl, by simp [docstringField, hd], ?_, ?_, ?_⟩
  · simp [analyzeAST, walkStmts, walkAux, sizeListS, Stmt.size, Stmt.children,
      funcInfoOf, docstringField, getDocstring]
  · simp [analyzeAST, walkStmts, walkAux, sizeListS, Stmt.size, Stmt.children,
      funcInfoOf, docstringField, getDocstring]
  · simp [analyzeAST, walkStmts, walkAux, sizeListS, Stmt.size, Stmt.children,
      funcInfoOf, docstringField, getDocstring, hd]

/-- C2 counterexample: two files declaring the same function `f`, one
whose body carries no docstring (`def f(): pass`) and one whose body
carries the empty-string docstring (`def f(): ""`).  The claim says the
reported docstring fields differ; the code reports the identical
`FunctionInfo` list — `"No docstring"` in both — because
`ast.get_docstring(child) or "No docstring"` maps the falsy empty
string to the sentinel. -/
theorem c2_counterexample :
    (analyzeAST "a.py" 2 ⟨[Stmt.functionDef "f" 1 0 [] [Stmt.other 2 4]]⟩).functions
      = (analyzeAST "a.py" 2 ⟨[Stmt.functionDef "f" 1 0 [] [Stmt.exprStr 2 4 ""]]⟩).functions
    ∧ docOfStmt (Stmt.functionDef "f" 1 0 [] [Stmt.other 2 4]) = none
    ∧ docOfStmt (Stmt.functionDef "f" 1 0 [] [Stmt.exprStr 2 4 ""]) = some "" := by
  refine ⟨by decide, by decide, by decide⟩

/-- Witness for `c2_theorem` at a concrete non-empty docstring. -/
theorem c2_witness :
    ("Adds." : String) ≠ ""
    ∧ (docstringField none = "No docstring"
        ∧ docstringField (some "") = "No docstring"
        ∧ docstringField (some "Adds.") = "Adds."
        ∧ (analyzeAST "f.py" 2 ⟨[Stmt.functionDef "f" 1 0 ["x"] [Stmt.other 2 4]]⟩).functions
            = [⟨"f", 1, "No docstring"⟩]
        ∧ (analyzeAST "f.py" 2 ⟨[Stmt.functionDef "f" 1 0 ["x"] [Stmt.exprStr 2 4 ""]]⟩).functions
            = [⟨"f", 1, "No docstring"⟩]
        ∧ (analyzeAST "f.py" 2 ⟨[Stmt.functionDef "f" 1 0 ["x"] [Stmt.exprStr 2 4 "Adds."]]⟩).functions
            = [⟨"f", 1, "Adds."⟩]) :=
  ⟨by decide, c2_theorem "f" 1 2 4 ["x"] "Adds." (by decide)⟩

/-! ## Top-level function selection (claim C3) -/

/-- In a syntactically valid Python file, a statement sits at module
level exactly when its column offset is zero (nested statements are
always indented).  Under those two parse invariants, the functions list
is exactly the module-level function declarations, in order. -/
theorem analyze_functions_eq (path : String) (lc : Nat) (m : Module)
    (h0 : ∀ s ∈ m.body, stmtCol s = 0)
    (h1 : ∀ s ∈ walkStmts (childrenList m.body), stmtCol s ≠ 0) :
    (analyzeAST path lc m).functions = m.body.filterMap topFuncInfoOf := by
  have hfun : (analyzeAST path lc m).functions
      = (walkStmts m.body).filterMap funcInfoOf := by
    simp [analyzeAST]
  rw [hfun, walkStmts_decomp, List.filterMap_append]
  have hnil : (walkStmts (childrenList m.body)).filterMap funcInfoOf = [] := by
    rw [List.filterMap_eq_nil_iff]
    intro s hs
    cases s with
    | functionDef nm ln col args b =>
      have hc := h1 _ hs
      simp only [stmtCol] at hc
      simp [funcInfoOf, hc]
    | classDef nm ln col b => rfl
    | importStmt ln col ns => rfl
    | importFrom ln col md ns => rfl
    | exprStr ln col s => rfl
    | other ln col => rfl
  have hcongr : m.body.filterMap funcInfoOf = m.body.filterMap topFuncInfoOf :=
    filterMap_congr_mem (fun s hs => by
      cases s with
      | functionDef nm ln col args b =>
        have hc := h0 _ hs
        simp only [stmtCol] at hc
        simp [funcInfoOf, topFuncInfoOf, hc]
      | classDef nm ln col b => rfl
      | importStmt ln col ns => rfl
      | importFrom ln col md ns => rfl
      | exprStr ln col s => rfl
      | other ln col => rfl)
  rw [hnil, hcongr, List.append_nil]

/-- C3: in a valid source file — where module-level statements have
column offset 0 and every statement nested inside another statement has
a positive column offset — a function declaration contributes a
`FunctionInfo` to the report's top-level function list if and only if
it is a direct element of the module body (lexical nesting depth zero):
the list equals the module body filtered to its function declarations,
in source order.  Functions nested inside other functions, classes, or
any indented block are excluded; class methods appear only in the class
entries' method lists. -/
theorem c3_theorem (path : String) (lc : Nat) (m : Module)
    (h0 : ∀ s ∈ m.body, stmtCol s = 0)
    (h1 : ∀ s ∈ walkStmts (childrenList m.body), stmtCol s ≠ 0) :
    (analyzeAST path lc m).functions = m.body.filterMap topFuncInfoOf :=
  analyze_functions_eq path lc m h0 h1

/-- Witness for `c3_theorem`: a module with one top-level function, one
class with a method, and a nested function — only the top-level one is
listed. -/
theorem c3_witness :
    (∀ s ∈ (Module.mk [Stmt.functionDef "f" 1 0 []
          [Stmt.functionDef "g" 2 4 [] [Stmt.other 3 8]],
        Stmt.classDef "C" 4 0 [Stmt.functionDef "m" 5 4 [] [Stmt.other 6 8]]]).body,
      stmtCol s = 0)
    ∧ (∀ s ∈ walkStmts (childrenList (Module.mk [Stmt.functionDef "f" 1 0 []
          [Stmt.functionDef "g" 2 4 [] [Stmt.other 3 8]],
        Stmt.classDef "C" 4 0 [Stmt.functionDef "m" 5 4 [] [Stmt.other 6 8]]]).body),
      stmtCol s ≠ 0)
    ∧ (analyzeAST "w.py" 6 ⟨[Stmt.functionDef "f" 1 0 []
          [Stmt.functionDef "g" 2 4 [] [Stmt.other 3 8]],
        Stmt.classDef "C" 4 0 [Stmt.functionDef "m" 5 4 [] [Stmt.other 6 8]]]⟩).functions
        = [⟨"f", 1, "No docstring"⟩] :=
  ⟨by decide, by decide, by
    rw [ c3_theorem "w.py" 6 ⟨[Stmt.functionDef "f" 1 0 []
          [Stmt.functionDef "g" 2 4 [] [Stmt.other 3 8]],
        Stmt.classDef "C" 4 0 [Stmt.functionDef "m" 5 4 [] [Stmt.other 6 8]]]⟩
        (by decide) (by decide)]
    decide⟩

/-! ## Line-number invariants (claim C4) -/

theorem topFuncInfoOf_lineno {s : Stmt} {x : FunctionInfo}
    (h : topFuncInfoOf s = some x) : x.lineno = stmtLineno s := by
  cases s with
  | functionDef nm ln col args b =>
    simp only [topFuncInfoOf, Option.some.injEq] at h
    rw [← h]
    rfl
  | classDef nm ln col b => simp [topFuncInfoOf] at h
  | importStmt ln col ns => simp [topFuncInfoOf] at h
  | importFrom ln col md ns => simp [topFuncInfoOf] at h
  | exprStr ln col s => simp [topFuncInfoOf] at h
  | other ln col => simp [topFuncInfoOf] at h

theorem methodInfoOf_lineno {s : Stmt} {x : MethodInfo}
    (h : methodInfoOf s = some x) : x.lineno = stmtLineno s := by
  cases s with
  | functionDef nm ln col args b =>
    simp only [methodInfoOf, Option.some.injEq] at h
    rw [← h]
    rfl
  | classDef nm ln col b => simp [methodInfoOf] at h
  | importStmt ln col ns => simp [methodInfoOf] at h
  | importFrom ln col md ns => simp [methodInfoOf] at h
  | exprStr ln col s => simp [methodInfoOf] at h
  | other ln col => simp [methodInfoOf] at h

theorem funcInfoOf_lineno {s : Stmt} {x : FunctionInfo}
    (h : funcInfoOf s = some x) : x.lineno = stmtLineno s := by
  cases s with
  | functionDef nm ln col args b =>
    by_cases hc : col = 0
    · simp only [funcInfoOf, hc, if_pos, Option.some.injEq] at h
      rw [← h]
      rfl
    · simp [funcInfoOf, hc] at h
  | classDef nm ln col b => simp [funcInfoOf] at h
  | importStmt ln col ns => simp [funcInfoOf] at h
  | importFrom ln col md ns => simp [funcInfoOf] at h
  | exprStr ln col s => simp [funcInfoOf] at h
  | other ln col => simp [funcInfoOf] at h

theorem classInfoOf_some {s : Stmt} {c : ClassInfo} (h : classInfoOf s = some c) :
    ∃ nm col, s = Stmt.classDef nm c.lineno col s.children
      ∧ c.methods = s.children.filterMap methodInfoOf := by
  cases s with
  | classDef nm ln col b =>
    simp only [classInfoOf, Option.some.injEq] at h
    refine ⟨nm, col, ?_, ?_⟩
    · rw [← h]
      rfl
    · rw [← h]
      rfl
  | functionDef nm ln col args b => simp [classInfoOf] at h
  | importStmt ln col ns => simp [classInfoOf] at h
  | importFrom ln col md ns => simp [classInfoOf] at h
  | exprStr ln col s => simp [classInfoOf] at h
  | other ln col => simp [classInfoOf] at h

/-- Transport of sorted line numbers through an info-extracting
`filterMap`. -/
theorem pairwise_lineno_filterMap {β : Type} (f : Stmt → Option β) (glineno : β → Nat)
    (hf : ∀ s x, f s = some x → glineno x = stmtLineno s) (l : List Stmt)
    (h : List.Pairwise (· ≤ ·) (l.map stmtLineno)) :
    List.Pairwise (· ≤ ·) ((l.filterMap f).map glineno) := by
  rw [List.pairwise_map] at h ⊢
  rw [List.pairwise_filterMap]
  refine h.imp ?_
  intro a b hab x hx y hy
  have hxa := hf a x (Option.mem_def.mp hx)
  have hyb := hf b y (Option.mem_def.mp hy)
  omega

/-- C4, amended: under the parse invariants of a valid source file
(line numbers at least 1, statements of each block in nondecreasing
line order, module-level statements at column 0 and nested statements
at positive columns), every line number in the report is 1-based, and
the top-level function list and each class's method list are
monotonically nondecreasing, matching source order.  The class list
itself, however, is emitted in breadth-first (`ast.walk`) order, so
with nested classes its line numbers need NOT be monotone — see
`c4_counterexample`. -/
theorem c4_theorem (path : String) (lc : Nat) (m : Module)
    (hln : ∀ s ∈ walkStmts m.body, 1 ≤ stmtLineno s)
    (h0 : ∀ s ∈ m.body, stmtCol s = 0)
    (h1 : ∀ s ∈ walkStmts (childrenList m.body), stmtCol s ≠ 0)
    (hsorted : List.Pairwise (· ≤ ·) (m.body.map stmtLineno))
    (hbody : ∀ s ∈ walkStmts m.body, List.Pairwise (· ≤ ·) (s.children.map stmtLineno)) :
    let r := analyzeAST path lc m
    (∀ c ∈ r.classes, 1 ≤ c.lineno)
    ∧ (∀ c ∈ r.classes, ∀ mi ∈ c.methods, 1 ≤ mi.lineno)
    ∧ (∀ f ∈ r.functions, 1 ≤ f.lineno)
    ∧ List.Pairwise (· ≤ ·) (r.functions.map FunctionInfo.lineno)
    ∧ (∀ c ∈ r.classes, List.Pairwise (· ≤ ·) (c.methods.map MethodInfo.lineno)) := by
  intro r
  have hcls : r.classes = (walkStmts m.body).filterMap classInfoOf := by
    simp [analyzeAST, r]
  have hfn : r.functions = (walkStmts m.body).filterMap funcInfoOf := by
    simp [analyzeAST, r]
  refine ⟨?_, ?_, ?_, ?_, ?_⟩
  · intro c hc
    rw [hcls] at hc
    obtain ⟨s, hs, hsc⟩ := List.mem_filterMap.mp hc
    obtain ⟨nm, col, hseq, _⟩ := classInfoOf_some hsc
    have := hln s hs
    rw [hseq] at this
    simpa [stmtLineno] using this
  · intro c hc mi hmi
    rw [hcls] at hc
    obtain ⟨s, hs, hsc⟩ := List.mem_filterMap.mp hc
    obtain ⟨nm, col, hseq, hmeth⟩ := classInfoOf_some hsc
    rw [hmeth] at hmi
    obtain ⟨ch, hch, hchm⟩ := List.mem_filterMap.mp hmi
    have hchw : ch ∈ walkStmts m.body := mem_children_mem_walk hs hch
    have := hln ch hchw
    rw [methodInfoOf_lineno hchm]
    exact this
  · intro f hf
    rw [hfn] at hf
    obtain ⟨s, hs, hsf⟩ := List.mem_filterMap.mp hf
    rw [funcInfoOf_lineno hsf]
    exact hln s hs
  · rw [hfn]
    have heq := analyze_functions_eq path lc m h0 h1
    rw [hfn] at heq
    rw [heq]
    exact pairwise_lineno_filterMap topFuncInfoOf FunctionInfo.lineno
      (fun s x h => topFuncInfoOf_lineno h) m.body hsorted
  · intro c hc
    rw [hcls] at hc
    obtain ⟨s, hs, hsc⟩ := List.mem_filterMap.mp hc
    obtain ⟨nm, col, hseq, hmeth⟩ := classInfoOf_some hsc
    rw [hmeth]
    exact pairwise_lineno_filterMap methodInfoOf MethodInfo.lineno
      (fun s x h => methodInfoOf_lineno h) s.children (hbody s hs)

/-- C4 counterexample: the valid file

    class A:        (line 1)
        class B:    (line 2)
            pass    (line 3)
    class C:        (line 4)
        pass        (line 5)

is reported with class list `A, C, B` — `ast.walk` is breadth-first, so
the nested class `B` is appended after `C` — and the class-list line
numbers `[1, 4, 2]` are not monotonically non-decreasing, contradicting
the claim that all of the report's ordered sequences are in source
order. -/
theorem c4_counterexample :
    ((analyzeAST "nested.py" 5
        ⟨[Stmt.classDef "A" 1 0 [Stmt.classDef "B" 2 4 [Stmt.other 3 8]],
          Stmt.classDef "C" 4 0 [Stmt.other 5 4]]⟩).classes.map ClassInfo.lineno
      = [1, 4, 2])
    ∧ ¬ List.Pairwise (· ≤ ·)
        ((analyzeAST "nested.py" 5
          ⟨[Stmt.classDef "A" 1 0 [Stmt.classDef "B" 2 4 [Stmt.other 3 8]],
            Stmt.classDef "C" 4 0 [Stmt.other 5 4]]⟩).classes.map ClassInfo.lineno)
    ∧ (∀ s ∈ walkStmts (Module.mk [Stmt.classDef "A" 1 0 [Stmt.classDef "B" 2 4 [Stmt.other 3 8]],
          Stmt.classDef "C" 4 0 [Stmt.other 5 4]]).body, 1 ≤ stmtLineno s)
    ∧ (∀ s ∈ (Module.mk [Stmt.classDef "A" 1 0 [Stmt.classDef "B" 2 4 [Stmt.other 3 8]],
          Stmt.classDef "C" 4 0 [Stmt.other 5 4]]).body, stmtCol s = 0)
    ∧ (∀ s ∈ walkStmts (childrenList (Module.mk
          [Stmt.classDef "A" 1 0 [Stmt.classDef "B" 2 4 [Stmt.other 3 8]],
          Stmt.classDef "C" 4 0 [Stmt.other 5 4]]).body), stmtCol s ≠ 0) :=
  ⟨by decide, by decide, by decide, by decide, by decide⟩

/-- Witness for `c4_theorem` at a concrete module. -/
theorem c4_witness :
    ((∀ s ∈ walkStmts (Module.mk [Stmt.functionDef "f" 1 0 [] [Stmt.other 2 4],
          Stmt.classDef "C" 3 0 [Stmt.functionDef "m" 4 4 [] [Stmt.other 5 8],
            Stmt.functionDef "n" 6 4 [] [Stmt.other 7 8]]]).body, 1 ≤ stmtLineno s)
      ∧ List.Pairwise (· ≤ ·) ((Module.mk [Stmt.functionDef "f" 1 0 [] [Stmt.other 2 4],
          Stmt.classDef "C" 3 0 [Stmt.functionDef "m" 4 4 [] [Stmt.other 5 8],
            Stmt.functionDef "n" 6 4 [] [Stmt.other 7 8]]]).body.map stmtLineno))
    ∧ List.Pairwise (· ≤ ·)
        ((analyzeAST "w4.py" 7 ⟨[Stmt.functionDef "f" 1 0 [] [Stmt.other 2 4],
          Stmt.classDef "C" 3 0 [Stmt.functionDef "m" 4 4 [] [Stmt.other 5 8],
            Stmt.functionDef "n" 6 4 [] [Stmt.other 7 8]]]⟩).functions.map
          FunctionInfo.lineno)
    ∧ (∀ c ∈ (analyzeAST "w4.py" 7 ⟨[Stmt.functionDef "f" 1 0 [] [Stmt.other 2 4],
          Stmt.classDef "C" 3 0 [Stmt.functionDef "m" 4 4 [] [Stmt.other 5 8],
            Stmt.functionDef "n" 6 4 [] [Stmt.other 7 8]]]⟩).classes,
        List.Pairwise (· ≤ ·) (c.methods.map MethodInfo.lineno)) :=
  ⟨⟨by decide, by decide⟩,
    ( c4_theorem "w4.py" 7 ⟨[Stmt.functionDef "f" 1 0 [] [Stmt.other 2 4],
        Stmt.classDef "C" 3 0 [Stmt.functionDef "m" 4 4 [] [Stmt.other 5 8],
          Stmt.functionDef "n" 6 4 [] [Stmt.other 7 8]]]⟩
      (by decide) (by decide) (by decide) (by decide) (by decide)).2.2.2.1,
    ( c4_theorem "w4.py" 7 ⟨[Stmt.functionDef "f" 1 0 [] [Stmt.other 2 4],
        Stmt.classDef "C" 3 0 [Stmt.functionDef "m" 4 4 [] [Stmt.other 5 8],
          Stmt.functionDef "n" 6 4 [] [Stmt.other 7 8]]]⟩
      (by decide) (by decide) (by decide) (by decide) (by decide)).2.2.2.2⟩

/-! ## Docstring target selection (claim C5) -/

/-- C5, amended: with neither a truthy name nor a truthy line number
(the code treats `None`, the empty string and line number 0 alike as
absent), `generate_docstring` targets the first undocumented
documentable node of a **breadth-first** (`ast.walk`) full-tree scan —
not a pre-order scan — first match wins, the module root scanned
first; with a nonempty name (which takes precedence over any line
argument) the whole tree is scanned in the same breadth-first order
and the first function or class bearing that name is returned; with no
truthy name and a nonzero line number, the same breadth-first scan
returns the first function or class whose `lineno` equals it.
Behaviour at ambiguous targets (duplicate names, a line number shared
by several declarations) is whatever first-match gives. -/
theorem c5_theorem (m : Module) (nm : String) (hnm : nm ≠ "") (n : Nat) (hn : n ≠ 0)
    (objectName : Option String) (lineNumber : Option Nat)
    (hobj : truthyOptStr objectName = false)
    (hline : truthyOptNat lineNumber = false) :
    findTarget m objectName lineNumber = bfsFirstUndocumented m
    ∧ findTarget m (some nm) lineNumber
        = ((walkStmts m.body).find? (fun s =>
            isFuncOrClass s && decide (stmtName s = some nm))).map DocTarget.stmtT
    ∧ findTarget m objectName (some n)
        = ((walkStmts m.body).find? (fun s =>
            isFuncOrClass s && decide (stmtLineno s = n))).map DocTarget.stmtT := by
  refine ⟨?_, ?_, ?_⟩
  · unfold findTarget bfsFirstUndocumented documentableTargets
    rw [if_neg (by simp [hobj]), if_neg (by simp [hline])]
    by_cases hm : truthyDoc (getDocstring m.body) = false
    · rw [if_pos (by simp [hm]), List.find?_cons_of_pos _ (by simp [targetDoc, hm])]
    · have hm' : truthyDoc (getDocstring m.body) = true := by
        revert hm
        cases truthyDoc (getDocstring m.body) <;> simp
      rw [if_neg (by simp [hm']), List.find?_cons_of_neg _ (by simp [targetDoc, hm'])]
      rw [find?_filterMap_ite isFuncOrClass DocTarget.stmtT
        (fun t => !truthyDoc (targetDoc m t))]
      rfl
  · unfold findTarget
    rw [if_pos (by simp [truthyOptStr, hnm])]
  · unfold findTarget
    rw [if_neg (by simp [hobj]), if_pos (by simp [truthyOptNat, hn])]
    have hpred : (fun s => isFuncOrClass s && decide (some (stmtLineno s) = some n))
        = (fun s => isFuncOrClass s && decide (stmtLineno s = n)) := by
      funext s
      simp
    rw [hpred]

/-- C5 counterexample: the file

    "Module doc"            (line 1)
    class A:                (line 2)
        "A doc"             (line 3)
        def m(self): ...    (line 4, undocumented)
    def f(): ...            (line 7, undocumented)

A pre-order scan reaches the nested undocumented method `m` (line 4)
before the top-level function `f` (line 7), but `ast.walk` is
breadth-first, so `generate_docstring` with no name and no line number
targets `f`, contradicting the claimed "pre-order, first match wins"
policy. -/
theorem c5_counterexample :
    findTarget ⟨[Stmt.exprStr 1 0 "Module doc",
        Stmt.classDef "A" 2 0 [Stmt.exprStr 3 4 "A doc",
          Stmt.functionDef "m" 4 4 [] [Stmt.other 5 8]],
        Stmt.functionDef "f" 7 0 [] [Stmt.other 8 4]]⟩ none none
      = some (DocTarget.stmtT (Stmt.functionDef "f" 7 0 [] [Stmt.other 8 4]))
    ∧ preorderFirstUndocumented ⟨[Stmt.exprStr 1 0 "Module doc",
        Stmt.classDef "A" 2 0 [Stmt.exprStr 3 4 "A doc",
          Stmt.functionDef "m" 4 4 [] [Stmt.other 5 8]],
        Stmt.functionDef "f" 7 0 [] [Stmt.other 8 4]]⟩
      = some (DocTarget.stmtT (Stmt.functionDef "m" 4 4 [] [Stmt.other 5 8]))
    ∧ Stmt.functionDef "f" 7 0 [] [Stmt.other 8 4]
        ≠ Stmt.functionDef "m" 4 4 [] [Stmt.other 5 8] :=
  ⟨by decide, by decide, by decide⟩

/-- Witness for `c5_theorem` at a concrete module, with the falsy
arguments instantiated at the empty name and line number 0 (which the
code treats as absent), the name lookup at "A", and the line lookup at
line 1. -/
theorem c5_witness :
    (("A" : String) ≠ "" ∧ (1 : Nat) ≠ 0
      ∧ truthyOptStr (some "") = false ∧ truthyOptNat (some 0) = false)
    ∧ (findTarget ⟨[Stmt.classDef "A" 1 0 [Stmt.other 2 4]]⟩ (some "") (some 0)
        = bfsFirstUndocumented ⟨[Stmt.classDef "A" 1 0 [Stmt.other 2 4]]⟩
      ∧ findTarget ⟨[Stmt.classDef "A" 1 0 [Stmt.other 2 4]]⟩ (some "A") (some 0)
        = ((walkStmts (Module.mk [Stmt.classDef "A" 1 0 [Stmt.other 2 4]]).body).find?
            (fun s => isFuncOrClass s && decide (stmtName s = some "A"))).map
              DocTarget.stmtT
      ∧ findTarget ⟨[Stmt.classDef "A" 1 0 [Stmt.other 2 4]]⟩ (some "") (some 1)
        = ((walkStmts (Module.mk [Stmt.classDef "A" 1 0 [Stmt.other 2 4]]).body).find?
            (fun s => isFuncOrClass s && decide (stmtLineno s = 1))).map
              DocTarget.stmtT) :=
  ⟨⟨by decide, by decide, by decide, by decide⟩,
    c5_theorem ⟨[Stmt.classDef "A" 1 0 [Stmt.other 2 4]]⟩ "A" (by decide) 1 (by decide)
      (some "") (some 0) (by decide) (by decide)⟩

/-! ## Filesystem lemmas (claims C6, C7, C10) -/

theorem length_le_of_mem_ancestorsOf {d q : FPath} (h : q ∈ ancestorsOf d) :
    q.length ≤ d.length := by
  unfold ancestorsOf at h
  obtain ⟨k, hk, rfl⟩ := List.mem_map.mp h
  simp [List.length_take]

theorem self_mem_ancestorsOf {d : FPath} (hd : d ≠ []) : d ∈ ancestorsOf d := by
  unfold ancestorsOf
  have hpos : 0 < d.length := List.length_pos.mpr hd
  refine List.mem_map.mpr ⟨d.length - 1, ?_, ?_⟩
  · simp only [List.mem_range]
    omega
  · have h1 : d.length - 1 + 1 = d.length := by omega
    rw [h1, List.take_length]

theorem isDirFS_append_ancestors {fs : FSState} {d p : FPath} (h : d.length < p.length) :
    isDirFS { fs with dirs := ancestorsOf d ++ fs.dirs } p = isDirFS fs p := by
  unfold isDirFS
  simp only [List.any_append]
  have h2 : (ancestorsOf d).any (fun q => decide (q = p)) = false := by
    rw [List.any_eq_false]
    intro q hq
    have hlen := length_le_of_mem_ancestorsOf hq
    simp only [decide_eq_true_eq]
    intro heq
    subst heq
    omega
  simp [h2]

theorem isDirFS_mem_ancestors {fs : FSState} {d q : FPath} (hq : q ∈ ancestorsOf d) :
    isDirFS { fs with dirs := ancestorsOf d ++ fs.dirs } q = true := by
  unfold isDirFS
  simp only [List.any_append, Bool.or_eq_true, List.any_eq_true]
  exact Or.inl ⟨q, hq, by simp⟩

theorem lookupFile_dirs_irrel (fs : FSState) (ds : List FPath) (p : FPath) :
    lookupFile { fs with dirs := ds } p = lookupFile fs p := rfl

theorem lookupFile_update_self (fs : FSState) (p : FPath) (X : String) :
    lookupFile { fs with files := (p, X) :: fs.files } p = some X := by
  unfold lookupFile
  rw [List.find?_cons_of_pos _ (by simp)]
  rfl

theorem lookupFile_after_delete (fs : FSState) (p : FPath) :
    lookupFile { fs with files := fs.files.filter (fun e => decide (e.1 ≠ p)) } p
      = none := by
  unfold lookupFile
  rw [List.find?_eq_none.mpr ?_]
  · rfl
  · intro e he
    have h2 := (List.mem_filter.mp he).2
    simp only [decide_eq_true_eq] at h2 ⊢
    exact h2

/-- Behaviour of `create_file` when the target is not a directory and
no component of the parent chain is an existing regular file: it
succeeds, the content lands at the path, the target is still not a
directory, the parent chain (if any) is a directory afterwards, and the
success record reports whether the path existed before. -/
theorem create_file_run (fs : FSState) (p : FPath) (X : String)
    (hdir : isDirFS fs p = false)
    (hanc : ∀ q ∈ ancestorsOf p.dropLast, lookupFile fs q = none) :
    (create_file fs p X).2.files = (p, X) :: fs.files
    ∧ lookupFile (create_file fs p X).2 p = some X
    ∧ isDirFS (create_file fs p X).2 p = false
    ∧ (p.dropLast ≠ [] → isDirFS (create_file fs p X).2 p.dropLast = true)
    ∧ (create_file fs p X).1
        = JVal.obj [("success", JVal.bool true),
            ("message", JVal.str ("File "
              ++ (if existsFS fs p then "overwritten" else "created")
              ++ " at " ++ showPath p)),
            ("path", JVal.str (showPath p)),
            ("existed_before", JVal.bool (existsFS fs p))] := by
  by_cases hde : p.dropLast.isEmpty = true
  · have hd : p.dropLast = [] := by
      cases hdp : p.dropLast with
      | nil => rfl
      | cons a t =>
        rw [hdp] at hde
        simp at hde
    have hguard : (!p.dropLast.isEmpty && !existsFS fs p.dropLast) = false := by
      rw [hde]
      rfl
    have hopen : openWriteOk fs p = true := by
      unfold openWriteOk
      simp [hdir, hd]
    simp only [create_file, hguard, Bool.false_eq_true, if_false, hopen, if_true]
    refine ⟨trivial, lookupFile_update_self fs p X, ?_, ?_, trivial⟩
    · show isDirFS { fs with files := (p, X) :: fs.files } p = false
      unfold isDirFS at hdir ⊢
      exact hdir
    · intro hcon
      exact absurd hd hcon
  · have hd : p.dropLast ≠ [] := by
      cases hdp : p.dropLast with
      | nil =>
        rw [hdp] at hde
        simp at hde
      | cons a t => simp
    have hlen : p.dropLast.length < p.length := by
      have h1 : p ≠ [] := by
        intro hp
        rw [hp] at hd
        simp at hd
      have h2 : 0 < p.length := List.length_pos.mpr h1
      simp only [List.length_dropLast]
      omega
    have hlookupd : lookupFile fs p.dropLast = none :=
      hanc _ (self_mem_ancestorsOf hd)
    have hde2 : (!p.dropLast.isEmpty) = true := by
      revert hde
      cases p.dropLast.isEmpty <;> simp
    by_cases hex : existsFS fs p.dropLast = true
    · have hdd : isDirFS fs p.dropLast = true := by
        unfold existsFS at hex
        rw [hlookupd] at hex
        simpa using hex
      have hguard : (!p.dropLast.isEmpty && !existsFS fs p.dropLast) = false := by
        rw [hex]
        simp
      have hopen : openWriteOk fs p = true := by
        unfold openWriteOk
        simp [hdir, hdd]
      simp only [create_file, hguard, Bool.false_eq_true, if_false, hopen, if_true]
      refine ⟨trivial, lookupFile_update_self fs p X, ?_, ?_, trivial⟩
      · show isDirFS { fs with files := (p, X) :: fs.files } p = false
        unfold isDirFS at hdir ⊢
        exact hdir
      · intro _
        show isDirFS { fs with files := (p, X) :: fs.files } p.dropLast = true
        unfold isDirFS at hdd ⊢
        exact hdd
    · have hexf : existsFS fs p.dropLast = false := by
        revert hex
        cases existsFS fs p.dropLast <;> simp
      have hguard : (!p.dropLast.isEmpty && !existsFS fs p.dropLast) = true := by
        rw [hexf, hde2]
        rfl
      have hclean : ((ancestorsOf p.dropLast).any
          (fun q => (lookupFile fs q).isSome)) = false := by
        rw [List.any_eq_false]
        intro q hq
        rw [hanc q hq]
        simp
      have hmk : makedirsFS fs p.dropLast
          = some { fs with dirs := ancestorsOf p.dropLast ++ fs.dirs } := by
        unfold makedirsFS
        rw [if_neg (by simp [hclean])]
      have hdir1 : isDirFS { fs with dirs := ancestorsOf p.dropLast ++ fs.dirs } p
          = false := by
        rw [isDirFS_append_ancestors hlen]
        exact hdir
      have hdd1 : isDirFS { fs with dirs := ancestorsOf p.dropLast ++ fs.dirs }
          p.dropLast = true :=
        isDirFS_mem_ancestors (self_mem_ancestorsOf hd)
      have hopen : openWriteOk { fs with dirs := ancestorsOf p.dropLast ++ fs.dirs } p
          = true := by
        unfold openWriteOk
        simp [hdir1, hdd1]
      have hexp : existsFS { fs with dirs := ancestorsOf p.dropLast ++ fs.dirs } p
          = existsFS fs p := by
        unfold existsFS
        rw [lookupFile_dirs_irrel, isDirFS_append_ancestors hlen]
      simp only [create_file, hguard, if_true, hmk, hopen, hexp]
      refine ⟨trivial, ?_, ?_, ?_, trivial⟩
      · exact lookupFile_update_self { fs with dirs := ancestorsOf p.dropLast ++ fs.dirs } p X
      · show isDirFS { fs with files := _, dirs := ancestorsOf p.dropLast ++ fs.dirs } p = false
        unfold isDirFS at hdir1 ⊢
        exact hdir1
      · intro _
        show isDirFS { fs with files := _, dirs := ancestorsOf p.dropLast ++ fs.dirs } p.dropLast = true
        unfold isDirFS at hdd1 ⊢
        exact hdd1

/-- Behaviour of `delete_file` on an existing regular file: success
record, and the file is gone afterwards. -/
theorem delete_file_run (fs : FSState) (p : FPath)
    (hfile : (lookupFile fs p).isSome = true)
    (hdir : isDirFS fs p = false) :
    (delete_file fs p).1
      = JVal.obj [("success", JVal.bool true),
          ("message", JVal.str ("File deleted: " ++ showPath p))]
    ∧ lookupFile (delete_file fs p).2 p = none
    ∧ isDirFS (delete_file fs p).2 p = false := by
  have hex : existsFS fs p = true := by
    unfold existsFS
    rw [hfile]
    rfl
  have hne : (!existsFS fs p) = false := by
    rw [hex]
    rfl
  simp only [delete_file, hne, Bool.false_eq_true, if_false, hdir, if_true]
  refine ⟨trivial, lookupFile_after_delete fs p, ?_⟩
  show isDirFS { fs with files := _ } p = false
  unfold isDirFS at hdir ⊢
  exact hdir

/-- C6, amended: `create_file(p, X)` followed by `get_file(p)` returns
exactly `X`, and after a successful `delete_file(p)` a subsequent
`get_file(p)` no longer returns the former content — but it does not
fail with a structured NotFound error: `get_file` reports the missing
file **in band**, returning the plain string
"Error reading file: [Errno 2] No such file or directory: p" as if it
were content (see `c6_counterexample`: that string is indistinguishable
from the content of a file that happens to contain it). -/
theorem c6_theorem (fs : FSState) (p : FPath) (X : String)
    (hdir : isDirFS fs p = false)
    (hanc : ∀ q ∈ ancestorsOf p.dropLast, lookupFile fs q = none)
    (hX : X ≠ readErrMsg p) :
    get_file_content (create_file fs p X).2 p = X
    ∧ objField (delete_file (create_file fs p X).2 p).1 "success"
        = some (JVal.bool true)
    ∧ get_file_content (delete_file (create_file fs p X).2 p).2 p = readErrMsg p
    ∧ get_file_content (delete_file (create_file fs p X).2 p).2 p ≠ X := by
  obtain ⟨hfiles, hlook, hdir2, hdd, hres⟩ := create_file_run fs p X hdir hanc
  have hsome : (lookupFile (create_file fs p X).2 p).isSome = true := by
    rw [hlook]
    rfl
  obtain ⟨hdel1, hdel2, hdel3⟩ := delete_file_run (create_file fs p X).2 p hsome hdir2
  have h1 : get_file_content (create_file fs p X).2 p = X := by
    unfold get_file_content
    rw [hlook]
  have h3 : get_file_content (delete_file (create_file fs p X).2 p).2 p
      = readErrMsg p := by
    unfold get_file_content
    rw [hdel2]
    simp [hdel3]
  refine ⟨h1, ?_, h3, ?_⟩
  · rw [hdel1]
    rfl
  · rw [h3]
    intro hcon
    exact hX hcon.symm

/-- C6 counterexample: after `create_file("data.txt", "X")` and a
successful `delete_file("data.txt")`, `get_file("data.txt")` does not
fail — it returns the error text as an ordinary string, byte-identical
to what `get_file` returns for an existing file whose content is that
very text.  The claimed "fails with a NotFound error rather than
returning content" is therefore false: the result IS returned content,
carrying no failure indication distinguishable from data. -/
theorem c6_counterexample :
    objField (delete_file (create_file ⟨[], []⟩ ["data.txt"] "X").2 ["data.txt"]).1
        "success" = some (JVal.bool true)
    ∧ get_file_content
        (delete_file (create_file ⟨[], []⟩ ["data.txt"] "X").2 ["data.txt"]).2
        ["data.txt"] = readErrMsg ["data.txt"]
    ∧ get_file_content
        (create_file ⟨[], []⟩ ["data.txt"] (readErrMsg ["data.txt"])).2
        ["data.txt"] = readErrMsg ["data.txt"]
    ∧ get_file_content
        (delete_file (create_file ⟨[], []⟩ ["data.txt"] "X").2 ["data.txt"]).2
        ["data.txt"]
      = get_file_content
          (create_file ⟨[], []⟩ ["data.txt"] (readErrMsg ["data.txt"])).2
          ["data.txt"] :=
  ⟨rfl, rfl, rfl, rfl⟩

/-- Witness for `c6_theorem` at a concrete filesystem, path and
content. -/
theorem c6_witness :
    (isDirFS ⟨[], []⟩ ["proj", "a.txt"] = false
      ∧ (∀ q ∈ ancestorsOf (["proj", "a.txt"] : FPath).dropLast,
          lookupFile ⟨[], []⟩ q = none)
      ∧ ("X" : String) ≠ readErrMsg ["proj", "a.txt"])
    ∧ (get_file_content (create_file ⟨[], []⟩ ["proj", "a.txt"] "X").2
          ["proj", "a.txt"] = "X"
      ∧ objField (delete_file (create_file ⟨[], []⟩ ["proj", "a.txt"] "X").2
          ["proj", "a.txt"]).1 "success" = some (JVal.bool true)
      ∧ get_file_content (delete_file (create_file ⟨[], []⟩ ["proj", "a.txt"] "X").2
          ["proj", "a.txt"]).2 ["proj", "a.txt"] = readErrMsg ["proj", "a.txt"]
      ∧ get_file_content (delete_file (create_file ⟨[], []⟩ ["proj", "a.txt"] "X").2
          ["proj", "a.txt"]).2 ["proj", "a.txt"] ≠ "X") :=
  ⟨⟨rfl, by decide, by simp [readErrMsg, notFoundErrno, showPath]⟩,
    c6_theorem ⟨[], []⟩ ["proj", "a.txt"] "X" rfl (by decide)
      (by simp [readErrMsg, notFoundErrno, showPath])⟩

/-! ## Error result shapes (claim C7) -/

/-- C7, amended: the modelled tool operations return every failure as a
value — none raises — but the failure shapes are not uniform: a failing
`delete_file` returns a structured record with a false `success`
indicator and an error message, and a failing `create_file` (here: the
target is an existing directory) likewise reports `success: false`,
while `get_file` on a missing path returns a **bare error string** with
no record structure and no success indicator at all (see
`c7_counterexample`). -/
theorem c7_theorem (fs : FSState) (p q : FPath) (c : String)
    (hmiss : lookupFile fs p = none)
    (hdirp : isDirFS fs p = false)
    (hdirq : isDirFS fs q = true) :
    (delete_file fs p).1
      = JVal.obj [("success", JVal.bool false),
          ("error", JVal.str ("File not found: " ++ showPath p))]
    ∧ get_file_tool fs p = JVal.str (readErrMsg p)
    ∧ objField (create_file fs q c).1 "success" = some (JVal.bool false) := by
  have hex : existsFS fs p = false := by
    unfold existsFS
    rw [hmiss, hdirp]
    rfl
  have hne : (!existsFS fs p) = true := by
    rw [hex]
    rfl
  refine ⟨?_, ?_, ?_⟩
  · simp only [delete_file, hne, if_true]
  · unfold get_file_tool get_file_content
    rw [hmiss]
    simp [hdirp]
  · by_cases hg : (!q.dropLast.isEmpty && !existsFS fs q.dropLast) = true
    · cases hmk : makedirsFS fs q.dropLast with
      | none =>
        simp only [create_file, hg, if_true, hmk]
        rfl
      | some fs1 =>
        have hfs1 : fs1 = { fs with dirs := ancestorsOf q.dropLast ++ fs.dirs } := by
          unfold makedirsFS at hmk
          by_cases hc : ((ancestorsOf q.dropLast).any
              (fun r => (lookupFile fs r).isSome)) = true
          · rw [if_pos hc] at hmk
            simp at hmk
          · rw [if_neg hc] at hmk
            injection hmk with h
            exact h.symm
        have hdirq1 : isDirFS fs1 q = true := by
          rw [hfs1]
          unfold isDirFS at hdirq ⊢
          simp only [List.any_append, Bool.or_eq_true]
          exact Or.inr hdirq
        have hopen : openWriteOk fs1 q = false := by
          unfold openWriteOk
          rw [hdirq1]
          rfl
        simp only [create_file, hg, if_true, hmk, hopen, Bool.false_eq_true, if_false]
        rfl
    · have hg2 : (!q.dropLast.isEmpty && !existsFS fs q.dropLast) = false := by
        revert hg
        cases (!q.dropLast.isEmpty && !existsFS fs q.dropLast) <;> simp
      have hopen : openWriteOk fs q = false := by
        unfold openWriteOk
        rw [hdirq]
        rfl
      simp only [create_file, hg2, Bool.false_eq_true, if_false, hopen]
      rfl

/-- C7 counterexample: `get_file` on a missing path is a failing call,
yet its result is a bare string — not a structured record, with no
message field and no falsy `success` indicator — contradicting the
claim that every operation's failure is returned as a structured record
carrying both. -/
theorem c7_counterexample :
    lookupFile ⟨[], []⟩ ["missing.txt"] = none
    ∧ get_file_tool ⟨[], []⟩ ["missing.txt"] = JVal.str (readErrMsg ["missing.txt"])
    ∧ (get_file_tool ⟨[], []⟩ ["missing.txt"]).isObjB = false
    ∧ objField (get_file_tool ⟨[], []⟩ ["missing.txt"]) "success" = none :=
  ⟨rfl, rfl, rfl, rfl⟩

/-- Witness for `c7_theorem` at a concrete filesystem. -/
theorem c7_witness :
    (lookupFile ⟨[], [["d"]]⟩ ["missing.txt"] = none
      ∧ isDirFS ⟨[], [["d"]]⟩ ["missing.txt"] = false
      ∧ isDirFS ⟨[], [["d"]]⟩ ["d"] = true)
    ∧ ((delete_file ⟨[], [["d"]]⟩ ["missing.txt"]).1
        = JVal.obj [("success", JVal.bool false),
            ("error", JVal.str ("File not found: " ++ showPath ["missing.txt"]))]
      ∧ get_file_tool ⟨[], [["d"]]⟩ ["missing.txt"]
          = JVal.str (readErrMsg ["missing.txt"])
      ∧ objField (create_file ⟨[], [["d"]]⟩ ["d"] "c").1 "success"
          = some (JVal.bool false)) :=
  ⟨⟨rfl, rfl, rfl⟩,
    c7_theorem ⟨[], [["d"]]⟩ ["missing.txt"] ["d"] "c" rfl rfl rfl⟩

/-! ## `find_files` and the recursive flag (claim C8) -/

theorem compsMatch_false_nil (rel : List String) :
    compsMatch false [] rel = match rel with | [] => true | _ :: _ => false := by
  cases rel <;> rfl

/-- Without recursion, the component match consumes exactly one path
component per pattern component. -/
theorem compsMatch_false_length :
    ∀ (pats rel : List String), compsMatch false pats rel = true
      → rel.length = pats.length := by
  intro pats
  induction pats with
  | nil =>
    intro rel h
    rw [compsMatch_false_nil] at h
    cases rel with
    | nil => rfl
    | cons c cs => simp at h
  | cons p ps ih =>
    intro rel h
    rw [compsMatch_false_cons] at h
    cases rel with
    | nil => simp at h
    | cons c cs =>
      simp only [Bool.and_eq_true] at h
      have := ih cs h.2
      simp [this]

/-- C8, amended: `find_files` with `recursive=false` stays inside the
directory only for patterns without a path separator: when the pattern
splits into a single component, every match is a direct child of the
directory.  A pattern containing a separator (such as "sub/*.txt"),
however, does reach into nested subdirectories even with
`recursive=false` — see `c8_counterexample`. -/
theorem c8_theorem (fs : FSState) (dir : FPath) (pattern : String) (q : FPath)
    (hpat : (splitPattern pattern).length = 1)
    (hq : q ∈ find_files_matches fs dir pattern false) :
    q.length = dir.length + 1 := by
  simp only [find_files_matches, Bool.false_eq_true, if_false] at hq
  have hq2 := (List.mem_filter.mp hq).2
  cases hrel : relTo dir q with
  | none =>
    rw [hrel] at hq2
    simp at hq2
  | some rel =>
    rw [hrel] at hq2
    have hlen := compsMatch_false_length _ _ hq2
    rw [hpat] at hlen
    unfold relTo at hrel
    by_cases ht : q.take dir.length = dir
    · rw [if_pos ht] at hrel
      injection hrel with hrel
      have h1 : dir.length ≤ q.length := by
        have h2 := congrArg List.length ht
        simp only [List.length_take] at h2
        omega
      have h3 : rel.length = q.length - dir.length := by
        rw [← hrel]
        simp [List.length_drop]
      omega
    · rw [if_neg ht] at hrel
      simp at hrel

/-- C8 counterexample: directory `d` containing subdirectory `sub` with
file `a.txt`.  The glob pattern "sub/*.txt" with `recursive=false`
matches `d/sub/a.txt`, a file in a nested subdirectory of `d` — which
the same call with `recursive=true` also matches — contradicting the
claim that a non-recursive `find_files` never returns a match from a
nested subdirectory. -/
theorem c8_counterexample :
    (["d", "sub", "a.txt"] : FPath)
      ∈ find_files_matches ⟨[(["d", "sub", "a.txt"], "hi")], [["d"], ["d", "sub"]]⟩
          ["d"] "sub/*.txt" false
    ∧ (["d", "sub", "a.txt"] : FPath)
      ∈ find_files_matches ⟨[(["d", "sub", "a.txt"], "hi")], [["d"], ["d", "sub"]]⟩
          ["d"] "sub/*.txt" true
    ∧ (["d", "sub", "a.txt"] : FPath).length = (["d"] : FPath).length + 2 :=
  ⟨by decide, by decide, by decide⟩

/-- Witness for `c8_theorem` at a concrete slash-free pattern. -/
theorem c8_witness :
    ((splitPattern "*.txt").length = 1
      ∧ (["d", "b.txt"] : FPath)
        ∈ find_files_matches ⟨[(["d", "b.txt"], "x")], [["d"]]⟩ ["d"] "*.txt" false)
    ∧ (["d", "b.txt"] : FPath).length = (["d"] : FPath).length + 1 :=
  ⟨⟨by decide, by decide⟩,
    c8_theorem ⟨[(["d", "b.txt"], "x")], [["d"]]⟩ ["d"] "*.txt" ["d", "b.txt"]
      (by decide) (by decide)⟩

/-! ## Analyzer purity (claim C9) -/

/-- A concrete stand-in parser for the C9 statements: accepts exactly
the text "x = 1" (one assignment statement) and rejects everything
else, as `ast.parse` would. -/
def parseX : String → Except String Module :=
  fun s => if s = "x = 1" then .ok ⟨[Stmt.other 1 0]⟩ else .error "invalid syntax"

/-- C9, amended: the analyser is handed a path and performs the file
read itself (so its output does depend on the filesystem — see
`c9_counterexample`), but the analysis of the text is pure: the report
depends only on the path and on the bytes stored at it, so any two
filesystem states agreeing on that file receive identical reports, and
re-analysing an unmodified file yields a byte-identical report. -/
theorem c9_theorem (parse : String → Except String Module) (fs fs2 : FSState)
    (p : FPath) (h : lookupFile fs p = lookupFile fs2 p) :
    analyze_python_file parse fs p = analyze_python_file parse fs2 p := by
  unfold analyze_python_file
  rw [h]

/-- C9 counterexample: `analyze_python_file` is not handed text — it
opens the path itself.  Its result on the same path differs between a
filesystem holding the file and one not holding it (an error report in
the latter case), so the analyser does perform file I/O, contradicting
"it performs no file I/O itself ... it is handed text, not a path". -/
theorem c9_counterexample :
    analyze_python_file parseX ⟨[(["m.py"], "x = 1")], []⟩ ["m.py"]
      ≠ analyze_python_file parseX ⟨[], []⟩ ["m.py"]
    ∧ analyze_python_file parseX ⟨[], []⟩ ["m.py"]
        = .error ⟨notFoundErrno ["m.py"], showPath ["m.py"]⟩
    ∧ analyze_python_file parseX ⟨[(["m.py"], "x = 1")], []⟩ ["m.py"]
        = .ok (analyzeAST (showPath ["m.py"]) 1 ⟨[Stmt.other 1 0]⟩) := by
  have h2 : analyze_python_file parseX ⟨[], []⟩ ["m.py"]
      = Except.error (ErrReport.mk (notFoundErrno ["m.py"]) (showPath ["m.py"])) := rfl
  have h3 : analyze_python_file parseX ⟨[(["m.py"], "x = 1")], []⟩ ["m.py"]
      = Except.ok (analyzeAST (showPath ["m.py"]) 1 ⟨[Stmt.other 1 0]⟩) := rfl
  refine ⟨?_, h2, h3⟩
  rw [h2, h3]
  intro hcon
  exact Except.noConfusion hcon

/-- Witness for `c9_theorem` at two concrete states agreeing on the
path. -/
theorem c9_witness :
    lookupFile ⟨[], []⟩ ["a.py"] = lookupFile ⟨[(["b.py"], "z")], []⟩ ["a.py"]
    ∧ analyze_python_file parseX ⟨[], []⟩ ["a.py"]
        = analyze_python_file parseX ⟨[(["b.py"], "z")], []⟩ ["a.py"] :=
  ⟨rfl, c9_theorem parseX ⟨[], []⟩ ⟨[(["b.py"], "z")], []⟩ ["a.py"] rfl⟩

/-! ## `create_file` overwrite semantics (claim C10) -/

/-- C10: `create_file` on a path that already names an existing regular
file silently overwrites its content and still reports success, with
`existed_before` set to true — it never refuses because the file exists
— and when the parent directory chain is missing (and free of
conflicting files) it is created first and the call succeeds. -/
theorem c10_theorem :
    (∀ (fs : FSState) (p : FPath) (c c0 : String),
      lookupFile fs p = some c0 → isDirFS fs p = false →
      (p.dropLast = [] ∨ isDirFS fs p.dropLast = true) →
      objField (create_file fs p c).1 "success" = some (JVal.bool true)
      ∧ objField (create_file fs p c).1 "existed_before" = some (JVal.bool true)
      ∧ lookupFile (create_file fs p c).2 p = some c)
    ∧ (∀ (fs : FSState) (p : FPath) (c : String),
      isDirFS fs p = false →
      (∀ q ∈ ancestorsOf p.dropLast, lookupFile fs q = none) →
      objField (create_file fs p c).1 "success" = some (JVal.bool true)
      ∧ (p.dropLast ≠ [] → isDirFS (create_file fs p c).2 p.dropLast = true)
      ∧ lookupFile (create_file fs p c).2 p = some c) := by
  constructor
  · intro fs p c c0 hf hdir hpar
    have hex : existsFS fs p = true := by
      unfold existsFS
      rw [hf]
      rfl
    have hguard : (!p.dropLast.isEmpty && !existsFS fs p.dropLast) = false := by
      rcases hpar with hpar | hpar
      · rw [hpar]
        rfl
      · have h2 : existsFS fs p.dropLast = true := by
          unfold existsFS
          rw [hpar]
          simp
        rw [h2]
        simp
    have hopen : openWriteOk fs p = true := by
      unfold openWriteOk
      rcases hpar with hpar | hpar <;> simp [hdir, hpar]
    simp only [create_file, hguard, Bool.false_eq_true, if_false, hopen, if_true, hex]
    exact ⟨rfl, rfl, lookupFile_update_self fs p c⟩
  · intro fs p c hdir hanc
    obtain ⟨hfiles, hlook, hdir2, hdd, hres⟩ := create_file_run fs p c hdir hanc
    refine ⟨?_, hdd, hlook⟩
    rw [hres]
    rfl

/-- Witness for `c10_theorem`: overwriting an existing `a.txt`, and
creating `x/y.txt` with a missing parent directory. -/
theorem c10_witness :
    (lookupFile ⟨[(["a.txt"], "old")], []⟩ ["a.txt"] = some "old"
      ∧ isDirFS ⟨[(["a.txt"], "old")], []⟩ ["a.txt"] = false
      ∧ ((["a.txt"] : FPath).dropLast = []
          ∨ isDirFS ⟨[(["a.txt"], "old")], []⟩ (["a.txt"] : FPath).dropLast = true))
    ∧ (objField (create_file ⟨[(["a.txt"], "old")], []⟩ ["a.txt"] "new").1 "success"
          = some (JVal.bool true)
      ∧ objField (create_file ⟨[(["a.txt"], "old")], []⟩ ["a.txt"] "new").1
          "existed_before" = some (JVal.bool true)
      ∧ lookupFile (create_file ⟨[(["a.txt"], "old")], []⟩ ["a.txt"] "new").2 ["a.txt"]
          = some "new")
    ∧ (objField (create_file ⟨[], []⟩ ["x", "y.txt"] "c").1 "success"
          = some (JVal.bool true)
      ∧ isDirFS (create_file ⟨[], []⟩ ["x", "y.txt"] "c").2 ["x"] = true) :=
  ⟨⟨rfl, rfl, Or.inl rfl⟩,
    c10_theorem.1 ⟨[(["a.txt"], "old")], []⟩ ["a.txt"] "new" "old" rfl rfl (Or.inl rfl),
    (c10_theorem.2 ⟨[], []⟩ ["x", "y.txt"] "c" rfl (by decide)).1,
    (c10_theorem.2 ⟨[], []⟩ ["x", "y.txt"] "c" rfl (by decide)).2.1 (by decide)⟩

end MCPAssist
